import Mathlib

/-!
Verification of the tile-transforming reverse proxy (`server.js`).

The development shallowly embeds the core of the program:

* the palette tables `COLOR_MAP` and `DESIG_COLORS`;
* the pixel transformer (`remapPixels`, `filterDesigPixels`) over raw
  interleaved RGBA byte buffers, including the nearest-colour
  classification loop, the 12000 squared-distance threshold, the
  hide-set alpha-zeroing and the `Math.round`-based interpolation
  (JS number arithmetic is modelled by exact real arithmetic; the
  byte store into the buffer is modelled with an explicit `% 256`);
* the tile cache (`getCachedTile`, `setCachedTile`) over an
  insertion-ordered association list mirroring a JS `Map`;
* the `hide` query-parameter parsing (JS `Number` is modelled on the
  decimal fragment relevant to comma-separated tokens: an empty or
  whitespace-only token converts to 0, a signed decimal literal to its
  value, anything else to NaN, encoded as `none`);
* the dispatcher's URL stripping (`cleanUrlOf`, `targetUrlOf`) and the
  cache-miss tile response path (`tileMissRespond`), with the image
  codec (the external `sharp` library) abstracted as an explicit
  fallible function argument.
-/

namespace PlowProxy

/-- An RGB colour triple; channels are integers as in JS arithmetic. -/
structure RGB where
  r : ℤ
  g : ℤ
  b : ℤ
deriving DecidableEq, Repr

/-- One entry of the plow-recency palette: a source colour paired with
its destination colour. -/
structure ColorMapping where
  src : RGB
  dst : RGB
deriving DecidableEq, Repr

/-- The plow-recency palette (`COLOR_MAP` in `server.js`). -/
def COLOR_MAP : List ColorMapping :=
  [ ⟨⟨0x00, 0x80, 0x00⟩, ⟨0x34, 0xa8, 0x53⟩⟩,
    ⟨⟨0x00, 0x00, 0xff⟩, ⟨0x42, 0x85, 0xf4⟩⟩,
    ⟨⟨0xff, 0xff, 0x00⟩, ⟨0xfb, 0xbc, 0x04⟩⟩,
    ⟨⟨0xff, 0xa5, 0x00⟩, ⟨0xe8, 0x71, 0x0a⟩⟩,
    ⟨⟨0x8a, 0x2b, 0xe2⟩, ⟨0x9c, 0x6a, 0xde⟩⟩,
    ⟨⟨0x3a, 0xe5, 0xee⟩, ⟨0x4e, 0xb8, 0xc4⟩⟩,
    ⟨⟨0x4b, 0x3b, 0x30⟩, ⟨0x8a, 0x7b, 0x6e⟩⟩ ]

/-- The designation-tile palette (`DESIG_COLORS` in `server.js`). -/
def DESIG_COLORS : List RGB :=
  [ ⟨0xbf, 0x40, 0x2e⟩,
    ⟨0x11, 0x41, 0xaf⟩,
    ⟨0xa0, 0xcc, 0x17⟩,
    ⟨0xff, 0xc2, 0x1e⟩ ]

/-- Squared Euclidean distance between two colours
(`dr*dr + dg*dg + db*db` in the classification loops). -/
def distSq (p s : RGB) : ℤ :=
  (p.r - s.r) * (p.r - s.r) + (p.g - s.g) * (p.g - s.g) + (p.b - s.b) * (p.b - s.b)

/-- Pair each palette entry with its index, starting from `n`
(the loop counter `j` of the classification loops). -/
def idxFrom (n : ℤ) : List RGB → List (ℤ × RGB)
  | [] => []
  | s :: rest => (n, s) :: idxFrom (n + 1) rest

/-- One step of the classification loop: `none` plays the role of the
initial `Infinity` for `bestDist`; a strictly smaller distance updates
`(bestIdx, bestDist)`, so the first index wins on exact ties. -/
def bestStep (p : RGB) (acc : ℤ × Option ℤ) (js : ℤ × RGB) : ℤ × Option ℤ :=
  let dist := distSq p js.2
  match acc.2 with
  | none => (js.1, some dist)
  | some bd => if dist < bd then (js.1, some dist) else acc

/-- The classification loop body folded over an indexed palette. -/
def bestFold (p : RGB) : List (ℤ × RGB) → (ℤ × Option ℤ) → ℤ × Option ℤ
  | [], acc => acc
  | js :: rest, acc => bestFold p rest (bestStep p acc js)

/-- Nearest-colour classification: returns `(bestIdx, bestDist)` as in
the loops of `remapPixels` / `filterDesigPixels`, starting from
`bestIdx = -1`, `bestDist = Infinity` (encoded `none`). -/
def bestMatch (p : RGB) (pal : List RGB) : ℤ × Option ℤ :=
  bestFold p (idxFrom 0 pal) (-1, none)

/-- Least `c` with `c * c ≥ m`, i.e. `⌈Real.sqrt m⌉` for a natural `m`. -/
def ceilSqrt (m : ℕ) : ℕ :=
  if Nat.sqrt m * Nat.sqrt m = m then Nat.sqrt m else Nat.sqrt m + 1

/-- Integer computation of
`Math.round(c + dl * Math.max(0, 1 - Math.sqrt D / 110))`
(one channel of the interpolation branch, with `c` the original channel
value, `dl = dst - src` and `D = bestDist`).  `Math.round x = ⌊x + 1/2⌋`,
and for `D < 12100` the expression equals
`(220*c + 220*dl + 110 - 2*dl*√D) / 220`; the subtracted (for `dl ≥ 0`)
or added (for `dl < 0`) term `2*|dl|*√D = √(4*dl²*D)` is replaced by its
integer ceiling resp. floor, which lies in the same unit interval and
hence has the same floor after division by 220. -/
def roundBlend (c dl : ℤ) (D : ℕ) : ℤ :=
  if 12100 ≤ D then c
  else
    let m : ℕ := (4 * dl * dl * (D : ℤ)).toNat
    if 0 ≤ dl then (220 * c + 220 * dl + 110 - (ceilSqrt m : ℤ)) / 220
    else (220 * c + 220 * dl + 110 + (Nat.sqrt m : ℤ)) / 220

/-- A byte store into the RGBA buffer (`data[i] = x`): JS coerces the
number to an unsigned 8-bit integer, i.e. reduces mod 256. -/
def storeByte (x : ℤ) : ℕ := (x % 256).toNat

/-- One RGBA pixel of the raw buffer. -/
structure Pixel where
  r : ℕ
  g : ℕ
  b : ℕ
  a : ℕ
deriving DecidableEq, Repr

/-- A parsed hide set: the values of a JS `Set` built from
`hideStr.split(',').map(Number)`.  `none` elements are NaN tokens. -/
abbrev HideVals : Type := List (Option ℚ)

/-- The per-request hide set: `null` (absent `hide` parameter) or a set
of JS numbers. -/
abbrev HideSet : Type := Option HideVals

/-- Membership test `hideSet.has(bestIdx)` against the parsed values
(a NaN member never equals an integer index). -/
def memHideVals (l : HideVals) (idx : ℤ) : Bool :=
  l.any fun v => decide (v = some (idx : ℚ))

/-- Membership test `hideSet && hideSet.has(bestIdx)` for a nullable
hide set. -/
def memHide (hs : HideSet) (idx : ℤ) : Bool :=
  match hs with
  | none => false
  | some l => memHideVals l idx

/-- The body of the `remapPixels` loop for a single RGBA pixel. -/
def remapPixel (hs : HideSet) (p : Pixel) : Pixel :=
  if p.a = 0 then p
  else
    let pc : RGB := ⟨(p.r : ℤ), (p.g : ℤ), (p.b : ℤ)⟩
    match bestMatch pc (COLOR_MAP.map ColorMapping.src) with
    | (bestIdx, some bestDist) =>
      if bestDist < 12000 then
        if memHide hs bestIdx then ⟨p.r, p.g, p.b, 0⟩
        else
          let cm := COLOR_MAP.getD bestIdx.toNat ⟨⟨0, 0, 0⟩, ⟨0, 0, 0⟩⟩
          if bestDist = 0 then
            ⟨storeByte cm.dst.r, storeByte cm.dst.g, storeByte cm.dst.b, p.a⟩
          else
            ⟨storeByte (roundBlend (p.r : ℤ) (cm.dst.r - cm.src.r) bestDist.toNat),
             storeByte (roundBlend (p.g : ℤ) (cm.dst.g - cm.src.g) bestDist.toNat),
             storeByte (roundBlend (p.b : ℤ) (cm.dst.b - cm.src.b) bestDist.toNat),
             p.a⟩
      else p
    | (_, none) => p

/-- The body of the `filterDesigPixels` loop for a single RGBA pixel. -/
def desigPixel (hs : HideVals) (p : Pixel) : Pixel :=
  if p.a = 0 then p
  else
    match bestMatch ⟨(p.r : ℤ), (p.g : ℤ), (p.b : ℤ)⟩ DESIG_COLORS with
    | (bestIdx, some bestDist) =>
      if bestDist < 12000 ∧ memHideVals hs bestIdx = true then ⟨p.r, p.g, p.b, 0⟩
      else p
    | (_, none) => p

/-- The shared `for (let i = 0; i < len; i += 4)` traversal: apply a
pixel transform to each complete RGBA quadruple; a trailing fragment of
fewer than four bytes is left untouched (in JS the reads past the end
yield `undefined`, every comparison with `NaN` fails and the pixel is
skipped). -/
def mapPixels (f : Pixel → Pixel) : List ℕ → List ℕ
  | r :: g :: b :: a :: rest =>
    let q := f ⟨r, g, b, a⟩
    q.r :: q.g :: q.b :: q.a :: mapPixels f rest
  | l => l

/-- `remapPixels(data, hideSet)` of `server.js` on a raw RGBA buffer. -/
def remapPixels (data : List ℕ) (hs : HideSet) : List ℕ :=
  mapPixels (remapPixel hs) data

/-- `filterDesigPixels(data, hideSet)` of `server.js` on a raw RGBA
buffer (its call sites always pass a non-null hide set). -/
def filterDesigPixels (data : List ℕ) (hs : HideVals) : List ℕ :=
  mapPixels (desigPixel hs) data

/-! ### Tile cache -/

/-- `TILE_CACHE_MAX` of `server.js`. -/
def TILE_CACHE_MAX : ℕ := 2000

/-- `TILE_CACHE_TTL` of `server.js` (milliseconds). -/
def TILE_CACHE_TTL : ℕ := 5 * 60000

/-- One cache entry: `{ buffer, timestamp }`. -/
structure CacheEntry where
  buffer : List ℕ
  timestamp : ℕ
deriving DecidableEq, Repr

/-- The tile cache: a JS `Map` modelled as an insertion-ordered
association list with pairwise-distinct keys; the head is the oldest
entry. -/
abbrev TileCache : Type := List (String × CacheEntry)

/-- `Map.get`: the value stored under a key. -/
def mapFind (key : String) : TileCache → Option CacheEntry
  | [] => none
  | (k, v) :: rest => if k = key then some v else mapFind key rest

/-- `Map.delete`: remove the entry under a key, keeping the order of
the others. -/
def mapErase (key : String) : TileCache → TileCache
  | [] => []
  | (k, v) :: rest => if k = key then mapErase key rest else (k, v) :: mapErase key rest

/-- `Map.set`: overwrite in place when the key is present (a JS `Map`
keeps the original insertion position), otherwise append at the end. -/
def mapPut (key : String) (v : CacheEntry) : TileCache → TileCache
  | [] => [(key, v)]
  | (k, w) :: rest => if k = key then (k, v) :: rest else (k, w) :: mapPut key v rest

/-- `getCachedTile(key)` of `server.js`, with the current time passed
explicitly; returns the looked-up buffer (or `none`) together with the
updated cache. -/
def getCachedTile (key : String) (now : ℕ) (c : TileCache) : Option (List ℕ) × TileCache :=
  match mapFind key c with
  | none => (none, c)
  | some entry =>
    if TILE_CACHE_TTL < now - entry.timestamp then (none, mapErase key c)
    else (some entry.buffer, mapPut key entry (mapErase key c))

/-- `setCachedTile(key, buffer)` of `server.js`, with the current time
passed explicitly: when the size is at (or above) `TILE_CACHE_MAX` the
first key of the map is deleted, then the new entry is stored. -/
def setCachedTile (key : String) (buf : List ℕ) (now : ℕ) (c : TileCache) : TileCache :=
  let c1 := if TILE_CACHE_MAX ≤ c.length then
      match c with
      | [] => c
      | (oldest, _) :: _ => mapErase oldest c
    else c
  mapPut key ⟨buf, now⟩ c1

/-- An API call against the cache, with its explicit time stamp. -/
inductive CacheOp where
  | get (key : String) (now : ℕ)
  | put (key : String) (buf : List ℕ) (now : ℕ)

/-- Apply one cache operation. -/
def applyOp (c : TileCache) : CacheOp → TileCache
  | CacheOp.get key now => (getCachedTile key now c).2
  | CacheOp.put key buf now => setCachedTile key buf now c

/-- Run a sequence of cache operations from the empty cache of process
startup. -/
def execOps (ops : List CacheOp) : TileCache :=
  ops.foldl applyOp []

/-! ### Hide-parameter parsing and URL handling

JS string primitives (`split`, `trim`, `URL` query handling) are
modelled by structural functions over the character list of the
string. -/

/-- JS `split` with a single-character separator. -/
def splitChar (sep : Char) : List Char → List (List Char)
  | [] => [[]]
  | ch :: rest =>
    if ch = sep then [] :: splitChar sep rest
    else
      match splitChar sep rest with
      | [] => [[ch]]
      | t :: ts => (ch :: t) :: ts

/-- Whitespace stripped by the JS string-to-number conversion. -/
def isJsSpace (ch : Char) : Bool :=
  ch == ' ' || ch == '\t' || ch == '\n' || ch == '\r'

/-- Strip leading and trailing whitespace. -/
def trimWs (l : List Char) : List Char :=
  ((l.dropWhile isJsSpace).reverse.dropWhile isJsSpace).reverse

/-- Numeric value of a digit string. -/
def digitsVal (l : List Char) : ℕ :=
  l.foldl (fun acc ch => 10 * acc + (ch.toNat - 48)) 0

/-- An unsigned decimal literal (`digits`, `digits.digits`, `digits.`
or `.digits`) and its value. -/
def jsDecimal (l : List Char) : Option ℚ :=
  match splitChar (Char.ofNat 46) l with
  | [w] =>
    if w ≠ [] ∧ w.all Char.isDigit then some ((digitsVal w : ℤ) : ℚ) else none
  | [w, fr] =>
    if (w ≠ [] ∨ fr ≠ []) ∧ w.all Char.isDigit ∧ fr.all Char.isDigit then
      some (((digitsVal w : ℤ) : ℚ) + ((digitsVal fr : ℤ) : ℚ) / (10 : ℚ) ^ fr.length)
    else none
  | _ => none

/-- JS `Number(tok)` for a comma-split token, modelled on the decimal
fragment of the string-to-number conversion: surrounding whitespace is
stripped; the empty remainder converts to 0; an optional sign followed
by a decimal literal converts to its value; everything else (including
the hexadecimal/exponent forms, which cannot win a membership test
against a small palette index anyway) is NaN, encoded as `none`. -/
def jsNumber (tok : List Char) : Option ℚ :=
  match trimWs tok with
  | [] => some 0
  | '-' :: u => (jsDecimal u).map fun q => -q
  | '+' :: u => jsDecimal u
  | t => jsDecimal t

/-- Lines 170-171 of `server.js`:
`hideStr ? new Set(hideStr.split(',').map(Number)) : null`. -/
def parseHideSet (hideStr : String) : HideSet :=
  if hideStr = "" then none
  else some ((splitChar ',' hideStr.data).map jsNumber)

/-- Break a character list at the first occurrence of a separator. -/
def breakAtFirst (sep : Char) : List Char → List Char × Option (List Char)
  | [] => ([], none)
  | ch :: rest =>
    if ch = sep then ([], some rest)
    else
      match breakAtFirst sep rest with
      | (pre, post) => (ch :: pre, post)

/-- Split a request URL into pathname and query string (the part after
the first `?`, without the `?`). -/
def splitUrl (url : String) : String × String :=
  match breakAtFirst (Char.ofNat 63) url.data with
  | (p, none) => (String.mk p, "")
  | (p, some q) => (String.mk p, String.mk q)

/-- Name and value of one `k=v` query component (split at the first
`=`; a missing `=` gives an empty value). -/
def paramOfChars (kv : List Char) : String × String :=
  match breakAtFirst (Char.ofNat 61) kv with
  | (k, none) => (String.mk k, "")
  | (k, some v) => (String.mk k, String.mk v)

/-- Parse a query string into its ordered `name = value` pairs. -/
def parseParams (q : String) : List (String × String) :=
  if q = "" then [] else (splitChar '&' q.data).map paramOfChars

/-- Join character lists with a separator. -/
def joinChar (sep : Char) : List (List Char) → List Char
  | [] => []
  | [x] => x
  | x :: y :: xs => x ++ sep :: joinChar sep (y :: xs)

/-- Serialize query pairs back into a search string (empty when there
are no parameters, as `URL.search` is). -/
def serializeParams (ps : List (String × String)) : String :=
  match ps with
  | [] => ""
  | _ =>
    String.mk ((Char.ofNat 63) ::
      joinChar '&' (ps.map fun kv => kv.1.data ++ (Char.ofNat 61) :: kv.2.data))

/-- The query pairs remaining after `parsed.searchParams.delete('hide')`. -/
def strippedParams (url : String) : List (String × String) :=
  (parseParams (splitUrl url).2).filter fun kv => kv.1 ≠ "hide"

/-- The first `hide` parameter value (`searchParams.get('hide') || ''`). -/
def hideParamOf (url : String) : String :=
  match (parseParams (splitUrl url).2).filter (fun kv => kv.1 = "hide") with
  | [] => ""
  | kv :: _ => kv.2

/-- `cleanUrl = parsed.pathname + parsed.search` after the `hide`
parameter has been deleted; this is also the canonical cache key. -/
def cleanUrlOf (url : String) : String :=
  (splitUrl url).1 ++ serializeParams (strippedParams url)

/-- `targetUrl = API_TARGET + '/mappingapi' + cleanUrl`. -/
def targetUrlOf (url : String) : String :=
  "https://plownyc.cityofnewyork.us" ++ ("/mappingapi" ++ cleanUrlOf url)

/-! ### The cache-miss tile response path -/

/-- What the proxy writes back to the client. -/
structure TileResponse where
  status : ℕ
  body : List ℕ
deriving DecidableEq, Repr

/-- Lines 225-256 of `server.js`: the tile-request branch after
upstream returned status 200 with an image body.  The raw bytes are
cached first; then the decode/transform/encode step — the external
`sharp` codec composed with the pixel transform, abstracted here as the
fallible argument `transform` — is attempted exactly as the dispatcher
selects it (`remapTile` for plow tiles, `filterDesigTile` for
designation tiles with a non-empty hide set, passthrough otherwise);
a thrown transform is caught and answered with the raw bytes, still
with status 200. -/
def tileMissRespond (cleanUrl : String) (now : ℕ) (inputBuf : List ℕ)
    (transform : List ℕ → Except String (List ℕ))
    (isPlowTile : Bool) (hs : HideSet) (cache : TileCache) :
    TileResponse × TileCache :=
  let cache1 := setCachedTile cleanUrl inputBuf now cache
  let outcome : Except String (List ℕ) :=
    if isPlowTile then transform inputBuf
    else
      match hs with
      | some l => if 0 < l.length then transform inputBuf else Except.ok inputBuf
      | none => Except.ok inputBuf
  match outcome with
  | Except.ok outputBuf => (⟨200, outputBuf⟩, cache1)
  | Except.error _ => (⟨200, inputBuf⟩, cache1)

/-! ### Rounding bridge: `roundBlend` versus the real-valued formula -/

/-- Floor of an integer divided by 220 is Euclidean division by 220. -/
lemma floorDiv220_intCast (a : ℤ) : ⌊(a : ℝ) / 220⌋ = a / 220 := by
  have h1 : 220 * (a / 220) ≤ a := by omega
  have h2 : a < 220 * (a / 220) + 220 := by omega
  rw [Int.floor_eq_iff]
  constructor
  · rw [le_div_iff₀ (by norm_num : (0:ℝ) < 220)]
    calc ((a / 220 : ℤ) : ℝ) * 220 = ((220 * (a / 220) : ℤ) : ℝ) := by push_cast; ring
    _ ≤ (a : ℝ) := by exact_mod_cast h1
  · rw [div_lt_iff₀ (by norm_num : (0:ℝ) < 220)]
    calc (a : ℝ) < ((220 * (a / 220) + 220 : ℤ) : ℝ) := by exact_mod_cast h2
    _ = ((a / 220 : ℤ) + 1) * 220 := by push_cast; ring

/-- Floor-division by 220 is constant on open unit intervals between
consecutive integers. -/
lemma floorDiv220_between (m0 : ℤ) (y : ℝ) (h1 : (m0 : ℝ) < y) (h2 : y < m0 + 1) :
    ⌊y / 220⌋ = m0 / 220 := by
  have hb1 : 220 * (m0 / 220) ≤ m0 := by omega
  have hb2 : m0 + 1 ≤ 220 * (m0 / 220) + 220 := by omega
  rw [Int.floor_eq_iff]
  constructor
  · rw [le_div_iff₀ (by norm_num : (0:ℝ) < 220)]
    have : ((220 * (m0 / 220) : ℤ) : ℝ) ≤ (m0 : ℝ) := by exact_mod_cast hb1
    calc ((m0 / 220 : ℤ) : ℝ) * 220 = ((220 * (m0 / 220) : ℤ) : ℝ) := by push_cast; ring
    _ ≤ (m0 : ℝ) := this
    _ ≤ y := le_of_lt h1
  · rw [div_lt_iff₀ (by norm_num : (0:ℝ) < 220)]
    have : ((m0 + 1 : ℤ) : ℝ) ≤ ((220 * (m0 / 220) + 220 : ℤ) : ℝ) := by exact_mod_cast hb2
    calc y < (m0 : ℝ) + 1 := h2
    _ ≤ ((220 * (m0 / 220) + 220 : ℤ) : ℝ) := by push_cast at this ⊢; linarith
    _ = ((m0 / 220 : ℤ) + 1) * 220 := by push_cast; ring

lemma floor_sub_sqrt_div220 (A : ℤ) (m : ℕ) :
    ⌊((A : ℝ) - Real.sqrt m) / 220⌋ = (A - (ceilSqrt m : ℤ)) / 220 := by
  by_cases hsq : Nat.sqrt m * Nat.sqrt m = m
  · have hks : Real.sqrt m = Nat.sqrt m := by
      have hm : (m : ℝ) = (Nat.sqrt m : ℝ) * (Nat.sqrt m : ℝ) := by exact_mod_cast hsq.symm
      rw [hm, Real.sqrt_mul_self (by positivity)]
    rw [hks, ceilSqrt, if_pos hsq,
      show (A : ℝ) - (Nat.sqrt m : ℝ) = ((A - (Nat.sqrt m : ℤ) : ℤ) : ℝ) by push_cast; ring,
      floorDiv220_intCast]
  · have hlt : Nat.sqrt m * Nat.sqrt m < m := by
      have := Nat.sqrt_le' m
      have h2 : Nat.sqrt m ^ 2 = Nat.sqrt m * Nat.sqrt m := sq (Nat.sqrt m) ▸ rfl
      omega
    have hub : m < (Nat.sqrt m + 1) * (Nat.sqrt m + 1) := by
      have := Nat.lt_succ_sqrt' m
      have h2 : (Nat.sqrt m).succ ^ 2 = (Nat.sqrt m + 1) * (Nat.sqrt m + 1) := by
        rw [Nat.succ_eq_add_one]; ring
      omega
    have hk1 : (Nat.sqrt m : ℝ) < Real.sqrt m := by
      rw [Real.lt_sqrt (by positivity)]
      have : ((Nat.sqrt m * Nat.sqrt m : ℕ) : ℝ) < (m : ℝ) := by exact_mod_cast hlt
      push_cast at this
      nlinarith
    have hk2 : Real.sqrt m < (Nat.sqrt m : ℝ) + 1 := by
      rw [Real.sqrt_lt' (by positivity)]
      have : (m : ℝ) < ((Nat.sqrt m + 1) * (Nat.sqrt m + 1) : ℕ) := by exact_mod_cast hub
      push_cast at this ⊢
      nlinarith
    have := floorDiv220_between (A - (Nat.sqrt m : ℤ) - 1) ((A : ℝ) - Real.sqrt m)
      (by push_cast; linarith) (by push_cast; linarith)
    rw [this, ceilSqrt, if_neg hsq]
    congr 1
    push_cast
    ring

lemma floor_add_sqrt_div220 (A : ℤ) (m : ℕ) :
    ⌊((A : ℝ) + Real.sqrt m) / 220⌋ = (A + (Nat.sqrt m : ℤ)) / 220 := by
  by_cases hsq : Nat.sqrt m * Nat.sqrt m = m
  · have hks : Real.sqrt m = Nat.sqrt m := by
      have hm : (m : ℝ) = (Nat.sqrt m : ℝ) * (Nat.sqrt m : ℝ) := by exact_mod_cast hsq.symm
      rw [hm, Real.sqrt_mul_self (by positivity)]
    rw [hks, show (A : ℝ) + (Nat.sqrt m : ℝ) = ((A + (Nat.sqrt m : ℤ) : ℤ) : ℝ) by push_cast; ring,
      floorDiv220_intCast]
  · have hlt : Nat.sqrt m * Nat.sqrt m < m := by
      have := Nat.sqrt_le' m
      have h2 : Nat.sqrt m ^ 2 = Nat.sqrt m * Nat.sqrt m := sq (Nat.sqrt m) ▸ rfl
      omega
    have hub : m < (Nat.sqrt m + 1) * (Nat.sqrt m + 1) := by
      have := Nat.lt_succ_sqrt' m
      have h2 : (Nat.sqrt m).succ ^ 2 = (Nat.sqrt m + 1) * (Nat.sqrt m + 1) := by
        rw [Nat.succ_eq_add_one]; ring
      omega
    have hk1 : (Nat.sqrt m : ℝ) < Real.sqrt m := by
      rw [Real.lt_sqrt (by positivity)]
      have : ((Nat.sqrt m * Nat.sqrt m : ℕ) : ℝ) < (m : ℝ) := by exact_mod_cast hlt
      push_cast at this
      nlinarith
    have hk2 : Real.sqrt m < (Nat.sqrt m : ℝ) + 1 := by
      rw [Real.sqrt_lt' (by positivity)]
      have : (m : ℝ) < ((Nat.sqrt m + 1) * (Nat.sqrt m + 1) : ℕ) := by exact_mod_cast hub
      push_cast at this ⊢
      nlinarith
    exact (floorDiv220_between (A + (Nat.sqrt m : ℤ)) ((A : ℝ) + Real.sqrt m)
      (by push_cast; linarith) (by push_cast; linarith))

/-- `roundBlend` computes `Math.round` of the real-valued interpolation
formula. -/
lemma roundBlend_eq_floor (c dl : ℤ) (D : ℕ) :
    roundBlend c dl D =
      ⌊(c : ℝ) + (dl : ℝ) * max 0 (1 - Real.sqrt D / 110) + 1 / 2⌋ := by
  by_cases h12 : 12100 ≤ D
  · have hs : (110 : ℝ) ≤ Real.sqrt D := by
      rw [Real.le_sqrt (by norm_num) (by positivity)]
      have h0 : (12100 : ℝ) ≤ (D : ℝ) := by exact_mod_cast h12
      nlinarith
    have hmax : max (0 : ℝ) (1 - Real.sqrt D / 110) = 0 :=
      max_eq_left (by linarith)
    rw [roundBlend, if_pos h12, hmax]
    rw [show (c : ℝ) + (dl : ℝ) * 0 + 1 / 2 = (c : ℝ) + 1 / 2 by ring,
      Int.floor_int_add]
    have : ⌊(1 / 2 : ℝ)⌋ = 0 := by
      rw [Int.floor_eq_iff]
      norm_num
    omega
  · have hD : (D : ℝ) < 12100 := by exact_mod_cast Nat.lt_of_not_le h12
    have hs : Real.sqrt D < 110 := by
      rw [Real.sqrt_lt' (by norm_num)]
      nlinarith
    have hmax : max (0 : ℝ) (1 - Real.sqrt D / 110) = 1 - Real.sqrt D / 110 :=
      max_eq_right (by nlinarith [Real.sqrt_nonneg (D : ℝ)])
    have hmnn : (0 : ℤ) ≤ 4 * dl * dl * (D : ℤ) := by
      have h1 := mul_self_nonneg dl
      have h2 : (0 : ℤ) ≤ (D : ℤ) := Int.ofNat_nonneg D
      nlinarith
    have hmcast : (((4 * dl * dl * (D : ℤ)).toNat : ℕ) : ℝ) = 4 * (dl : ℝ) * dl * D := by
      rw [show ((((4 * dl * dl * (D : ℤ)).toNat : ℕ)) : ℝ) =
        (((4 * dl * dl * (D : ℤ)).toNat : ℤ) : ℝ) by push_cast; ring]
      rw [Int.toNat_of_nonneg hmnn]
      push_cast
      ring
    rw [roundBlend, if_neg h12, hmax]
    by_cases hdl : 0 ≤ dl
    · have hsm : Real.sqrt ((4 * dl * dl * (D : ℤ)).toNat : ℕ) = 2 * (dl : ℝ) * Real.sqrt D := by
        rw [show ((((4 * dl * dl * (D : ℤ)).toNat : ℕ)) : ℝ) = (2 * (dl : ℝ)) ^ 2 * D by
          rw [hmcast]; ring]
        rw [Real.sqrt_mul (sq_nonneg _), Real.sqrt_sq_eq_abs,
          abs_of_nonneg (by positivity : (0:ℝ) ≤ 2 * (dl : ℝ))]
      simp only [if_pos hdl]
      rw [show (c : ℝ) + (dl : ℝ) * (1 - Real.sqrt D / 110) + 1 / 2 =
        (((220 * c + 220 * dl + 110 : ℤ) : ℝ) -
          Real.sqrt ((4 * dl * dl * (D : ℤ)).toNat : ℕ)) / 220 by
          rw [hsm]; push_cast; ring]
      exact (floor_sub_sqrt_div220 (220 * c + 220 * dl + 110) _).symm ▸ rfl
    · have hdlneg : dl < 0 := by omega
      have hsm : Real.sqrt ((4 * dl * dl * (D : ℤ)).toNat : ℕ) =
          -(2 * (dl : ℝ)) * Real.sqrt D := by
        rw [show ((((4 * dl * dl * (D : ℤ)).toNat : ℕ)) : ℝ) = (-(2 * (dl : ℝ))) ^ 2 * D by
          rw [hmcast]; ring]
        rw [Real.sqrt_mul (sq_nonneg _), Real.sqrt_sq_eq_abs,
          abs_of_nonneg (by
            have : (dl : ℝ) < 0 := by exact_mod_cast hdlneg
            linarith : (0:ℝ) ≤ -(2 * (dl : ℝ)))]
      simp only [if_neg hdl]
      rw [show (c : ℝ) + (dl : ℝ) * (1 - Real.sqrt D / 110) + 1 / 2 =
        (((220 * c + 220 * dl + 110 : ℤ) : ℝ) +
          Real.sqrt ((4 * dl * dl * (D : ℤ)).toNat : ℕ)) / 220 by
          rw [hsm]; push_cast; ring]
      exact (floor_add_sqrt_div220 (220 * c + 220 * dl + 110) _).symm ▸ rfl

/-! ### Range of the interpolated channel values -/

/-- Arithmetic side conditions on a palette channel pair `(s, d)` under
which the interpolated value stays inside the byte range for every
matched pixel. -/
def chanOK (s d : ℤ) : Prop :=
  0 ≤ s ∧ s ≤ 255 ∧ 0 ≤ d ∧ d ≤ 255 ∧
  (d - s ≤ 0 ∨ (0 < d - s ∧ d - s ≤ 110 ∧ 110 * s + (d - s) ≤ 16114) ∨
    (110 < d - s ∧ 110 * s + 219 * (d - s) ≤ 40094)) ∧
  (0 ≤ d - s ∨ 109 ≤ d)

instance (s d : ℤ) : Decidable (chanOK s d) := by
  unfold chanOK
  infer_instance

/-- Every channel pair of the plow palette satisfies the side
conditions. -/
lemma COLOR_MAP_chanOK :
    ∀ cm ∈ COLOR_MAP, chanOK cm.src.r cm.dst.r ∧ chanOK cm.src.g cm.dst.g ∧
      chanOK cm.src.b cm.dst.b := by decide

set_option maxHeartbeats 800000 in
/-- For a matched pixel channel (byte-valued, within the threshold) the
rounded interpolation formula lies in `[0, 255]`. -/
lemma blend_floor_bounds (c s d : ℤ) (D : ℕ)
    (hc0 : 0 ≤ c) (hc : c ≤ 255) (hok : chanOK s d)
    (he : (c - s) * (c - s) ≤ (D : ℤ)) (hD0 : 0 < D) (hD : D < 12000) :
    0 ≤ ⌊(c : ℝ) + ((d - s : ℤ) : ℝ) * max 0 (1 - Real.sqrt (D : ℝ) / 110) + 1 / 2⌋ ∧
      ⌊(c : ℝ) + ((d - s : ℤ) : ℝ) * max 0 (1 - Real.sqrt (D : ℝ) / 110) + 1 / 2⌋ ≤ 255 := by
  obtain ⟨hs0, hs255, hd0, hd255, hup, hlo⟩ := hok
  have hDreal : (0 : ℝ) < (D : ℝ) := by exact_mod_cast hD0
  have hDlt : (D : ℝ) < 12000 := by exact_mod_cast hD
  have hu0 : 0 < Real.sqrt (D : ℝ) := Real.sqrt_pos.mpr hDreal
  have hu110 : Real.sqrt (D : ℝ) < 110 := by
    rw [Real.sqrt_lt' (by norm_num)]
    nlinarith
  have hmax : max (0:ℝ) (1 - Real.sqrt (D : ℝ) / 110) = 1 - Real.sqrt (D : ℝ) / 110 :=
    max_eq_right (by nlinarith)
  have habs : |((c - s : ℤ) : ℝ)| ≤ Real.sqrt (D : ℝ) := by
    have h1 : Real.sqrt (((c - s : ℤ) : ℝ) ^ 2) ≤ Real.sqrt (D : ℝ) := by
      apply Real.sqrt_le_sqrt
      have h2 : ((c - s) * (c - s) : ℤ) ≤ (D : ℤ) := he
      have h3 : (((c - s) * (c - s) : ℤ) : ℝ) ≤ ((D : ℤ) : ℝ) := by exact_mod_cast h2
      push_cast at h3 ⊢
      nlinarith
    rwa [Real.sqrt_sq_eq_abs] at h1
  obtain ⟨habs1, habs2⟩ := abs_le.mp habs
  have hDz : (D : ℤ) < 12000 := by exact_mod_cast hD
  have he109a : c - s ≤ 109 := by
    by_contra hcon
    push_neg at hcon
    have h110 : (110 : ℤ) ≤ c - s := by omega
    have hsq : (110 : ℤ) * 110 ≤ (c - s) * (c - s) :=
      mul_le_mul h110 h110 (by norm_num) (by omega)
    linarith
  have he109b : -109 ≤ c - s := by
    by_contra hcon
    push_neg at hcon
    have h110 : (110 : ℤ) ≤ -(c - s) := by omega
    have hsq : (110 : ℤ) * 110 ≤ (-(c - s)) * (-(c - s)) :=
      mul_le_mul h110 h110 (by norm_num) (by omega)
    have hsq2 : (-(c - s)) * (-(c - s)) = (c - s) * (c - s) := by ring
    linarith [hsq2 ▸ hsq]
  have hcr : (c : ℝ) ≤ 255 := by exact_mod_cast hc
  have hcr0 : (0 : ℝ) ≤ (c : ℝ) := by exact_mod_cast hc0
  have hsr0 : (0 : ℝ) ≤ (s : ℝ) := by exact_mod_cast hs0
  have her : ((c - s : ℤ) : ℝ) = (c : ℝ) - (s : ℝ) := by push_cast; ring
  have hdlr : ((d - s : ℤ) : ℝ) = (d : ℝ) - (s : ℝ) := by push_cast; ring
  have he109ar : ((c - s : ℤ) : ℝ) ≤ 109 := by exact_mod_cast he109a
  have he109br : (-109 : ℝ) ≤ ((c - s : ℤ) : ℝ) := by exact_mod_cast he109b
  have hexp : ((d - s : ℤ) : ℝ) * (1 - Real.sqrt (D : ℝ) / 110) =
      ((d - s : ℤ) : ℝ) - ((d - s : ℤ) : ℝ) * (Real.sqrt (D : ℝ) / 110) := by ring
  constructor
  · rw [Int.floor_nonneg, hmax]
    by_cases hdl : 0 ≤ d - s
    · have hdlr0 : (0 : ℝ) ≤ ((d - s : ℤ) : ℝ) := by exact_mod_cast hdl
      have ht : (0:ℝ) ≤ 1 - Real.sqrt (D : ℝ) / 110 := by nlinarith
      nlinarith [mul_nonneg hdlr0 ht]
    · have h109 : 109 ≤ d := hlo.resolve_left hdl
      have h109r : (109 : ℝ) ≤ (d : ℝ) := by exact_mod_cast h109
      have hdlr1 : ((d - s : ℤ) : ℝ) ≤ 0 := by
        have : d - s < 0 := by omega
        exact_mod_cast le_of_lt this
      have h1 : ((d - s : ℤ) : ℝ) * (Real.sqrt (D : ℝ) / 110) ≤ 0 :=
        mul_nonpos_of_nonpos_of_nonneg hdlr1 (by positivity)
      rw [hexp]
      linarith [her, hdlr]
  · have h256 : ⌊(c : ℝ) + ((d - s : ℤ) : ℝ) * max 0 (1 - Real.sqrt (D : ℝ) / 110) + 1 / 2⌋ <
        256 := by
      rw [Int.floor_lt, hmax]
      rcases hup with hdlneg | ⟨hdl0, hdl110, hA⟩ | ⟨hdl110, hB⟩
      · have hdlr1 : ((d - s : ℤ) : ℝ) ≤ 0 := by exact_mod_cast hdlneg
        have ht : (0:ℝ) ≤ 1 - Real.sqrt (D : ℝ) / 110 := by nlinarith
        have h1 : ((d - s : ℤ) : ℝ) * (1 - Real.sqrt (D : ℝ) / 110) ≤ 0 :=
          mul_nonpos_of_nonpos_of_nonneg hdlr1 ht
        push_cast
        push_cast at h1
        linarith
      · have hdlr0 : (0 : ℝ) ≤ ((d - s : ℤ) : ℝ) := by
          exact_mod_cast le_of_lt hdl0
        have hdlr110 : ((d - s : ℤ) : ℝ) ≤ 110 := by exact_mod_cast hdl110
        have hAr : 110 * (s : ℝ) + ((d - s : ℤ) : ℝ) ≤ 16114 := by
          have : ((110 * s + (d - s) : ℤ) : ℝ) ≤ ((16114 : ℤ) : ℝ) := by exact_mod_cast hA
          push_cast at this
          linarith
        have hP1 : 0 ≤ ((d - s : ℤ) : ℝ) * (Real.sqrt (D : ℝ) - ((c - s : ℤ) : ℝ)) :=
          mul_nonneg hdlr0 (by linarith)
        have hP2 : 0 ≤ (109 - ((c - s : ℤ) : ℝ)) * (110 - ((d - s : ℤ) : ℝ)) :=
          mul_nonneg (by linarith) (by linarith)
        push_cast
        push_cast at hP1 hP2
        linarith [hP1, hP2]
      · have hdlr110 : (110 : ℝ) ≤ ((d - s : ℤ) : ℝ) := by
          exact_mod_cast le_of_lt hdl110
        have hBr : 110 * (s : ℝ) + 219 * ((d - s : ℤ) : ℝ) ≤ 40094 := by
          have : ((110 * s + 219 * (d - s) : ℤ) : ℝ) ≤ ((40094 : ℤ) : ℝ) := by
            exact_mod_cast hB
          push_cast at this
          linarith
        have hP1 : 0 ≤ ((d - s : ℤ) : ℝ) * (Real.sqrt (D : ℝ) - ((c - s : ℤ) : ℝ)) :=
          mul_nonneg (by linarith) (by linarith)
        have hP3 : 0 ≤ (((c - s : ℤ) : ℝ) + 109) * (((d - s : ℤ) : ℝ) - 110) :=
          mul_nonneg (by linarith) (by linarith)
        push_cast
        push_cast at hP1 hP3
        linarith [hP1, hP3]
    omega

/-- On the interpolation branch `roundBlend` stays within a byte, so
the store into the buffer does not wrap. -/
lemma roundBlend_byte (c s d : ℤ) (D : ℕ)
    (hc0 : 0 ≤ c) (hc : c ≤ 255) (hok : chanOK s d)
    (he : (c - s) * (c - s) ≤ (D : ℤ)) (hD0 : 0 < D) (hD : D < 12000) :
    0 ≤ roundBlend c (d - s) D ∧ roundBlend c (d - s) D ≤ 255 ∧
      (storeByte (roundBlend c (d - s) D) : ℤ) = roundBlend c (d - s) D := by
  have hb := blend_floor_bounds c s d D hc0 hc hok he hD0 hD
  have heq := roundBlend_eq_floor c (d - s) D
  refine ⟨?_, ?_, ?_⟩
  · rw [heq]
    exact hb.1
  · rw [heq]
    exact hb.2
  · have h1 := hb.1
    have h2 := hb.2
    unfold storeByte
    rw [heq]
    omega

/-! ### Facts about the classification loop -/

/-- Squared distances are nonnegative. -/
lemma distSq_nonneg (p s : RGB) : 0 ≤ distSq p s := by
  unfold distSq
  nlinarith [mul_self_nonneg (p.r - s.r), mul_self_nonneg (p.g - s.g),
    mul_self_nonneg (p.b - s.b)]

/-- A squared distance of zero means the colours are equal. -/
lemma distSq_eq_zero (p s : RGB) (h : distSq p s = 0) : p = s := by
  obtain ⟨pr, pg, pb⟩ := p
  obtain ⟨sr, sg, sb⟩ := s
  unfold distSq at h
  simp only at h
  have h1 : (pr - sr) * (pr - sr) = 0 := by
    nlinarith [mul_self_nonneg (pr - sr), mul_self_nonneg (pg - sg), mul_self_nonneg (pb - sb)]
  have h2 : (pg - sg) * (pg - sg) = 0 := by
    nlinarith [mul_self_nonneg (pr - sr), mul_self_nonneg (pg - sg), mul_self_nonneg (pb - sb)]
  have h3 : (pb - sb) * (pb - sb) = 0 := by
    nlinarith [mul_self_nonneg (pr - sr), mul_self_nonneg (pg - sg), mul_self_nonneg (pb - sb)]
  have e1 : pr = sr := by have := mul_self_eq_zero.mp h1; omega
  have e2 : pg = sg := by have := mul_self_eq_zero.mp h2; omega
  have e3 : pb = sb := by have := mul_self_eq_zero.mp h3; omega
  rw [e1, e2, e3]

/-- One step of the loop either keeps the accumulator or moves to the
scanned entry with its distance. -/
lemma bestStep_result (p : RGB) (acc : ℤ × Option ℤ) (js : ℤ × RGB) :
    bestStep p acc js = acc ∨ bestStep p acc js = (js.1, some (distSq p js.2)) := by
  obtain ⟨i0, o0⟩ := acc
  unfold bestStep
  cases o0 with
  | none => exact Or.inr rfl
  | some bd =>
    by_cases hlt : distSq p js.2 < bd
    · simp only [if_pos hlt]
      exact Or.inr trivial
    · simp only [if_neg hlt]
      exact Or.inl trivial

/-- The fold ends in `(idx, some bd)` only if it started there or some
scanned entry has index `idx` and distance `bd`. -/
lemma bestFold_result (p : RGB) (l : List (ℤ × RGB)) :
    ∀ (acc : ℤ × Option ℤ) (idx bd : ℤ),
      bestFold p l acc = (idx, some bd) →
      acc = (idx, some bd) ∨ ∃ js ∈ l, js.1 = idx ∧ distSq p js.2 = bd := by
  induction l with
  | nil => exact fun acc idx bd h => Or.inl h
  | cons js rest ih =>
    intro acc idx bd h
    rw [bestFold] at h
    rcases ih (bestStep p acc js) idx bd h with hstep | ⟨js2, hmem, hj1, hj2⟩
    · rcases bestStep_result p acc js with ha | hb
      · exact Or.inl (ha ▸ hstep)
      · right
        have heq : (js.1, some (distSq p js.2)) = ((idx : ℤ), some bd) := hb ▸ hstep
        exact ⟨js, List.mem_cons_self _ _,
          congrArg Prod.fst heq, Option.some.inj (congrArg Prod.snd heq)⟩
    · exact Or.inr ⟨js2, List.mem_cons_of_mem _ hmem, hj1, hj2⟩

/-- Membership in an indexed palette determines the entry by position. -/
lemma idxFrom_mem (pal : List RGB) :
    ∀ (n j : ℤ) (s : RGB), (j, s) ∈ idxFrom n pal →
      n ≤ j ∧ (j - n).toNat < pal.length ∧ pal.getD (j - n).toNat ⟨0, 0, 0⟩ = s := by
  induction pal with
  | nil =>
    intro n j s h
    rw [idxFrom] at h
    cases h
  | cons c rest ih =>
    intro n j s h
    rw [idxFrom] at h
    rcases List.mem_cons.mp h with heq | hmem
    · have hj : j = n := congrArg Prod.fst heq
      have hsc : s = c := congrArg Prod.snd heq
      refine ⟨le_of_eq hj.symm, ?_, ?_⟩
      · have hz : (j - n).toNat = 0 := by omega
        rw [hz]
        simp
      · have hz : (j - n).toNat = 0 := by omega
        rw [hz]
        exact hsc.symm
    · obtain ⟨hle, hlt, hget⟩ := ih (n + 1) j s hmem
      have hle0 : n ≤ j := by omega
      have hk : (j - n).toNat = (j - (n + 1)).toNat + 1 := by omega
      refine ⟨hle0, ?_, ?_⟩
      · rw [hk]
        simpa using hlt
      · rw [hk]
        simpa [List.getD] using hget

/-- What the classification returns: a nonnegative in-range index whose
palette entry realises the returned distance. -/
lemma bestMatch_spec (p : RGB) (pal : List RGB) (idx bd : ℤ)
    (h : bestMatch p pal = (idx, some bd)) :
    0 ≤ idx ∧ idx.toNat < pal.length ∧ distSq p (pal.getD idx.toNat ⟨0, 0, 0⟩) = bd := by
  rcases bestFold_result p (idxFrom 0 pal) (-1, none) idx bd h with hacc | ⟨js, hmem, hj1, hj2⟩
  · exact absurd (congrArg Prod.snd hacc) (by simp)
  · obtain ⟨j, s⟩ := js
    simp only at hj1 hj2
    subst hj1
    obtain ⟨hle, hlt, hget⟩ := idxFrom_mem pal 0 j s hmem
    have hz : j - 0 = j := by omega
    rw [hz] at hlt hget
    exact ⟨hle, hlt, by rw [hget]; exact hj2⟩

/-! ### Facts about the buffer traversal -/

/-- The traversal preserves the buffer length. -/
lemma mapPixels_length (f : Pixel → Pixel) (l : List ℕ) :
    (mapPixels f l).length = l.length := by
  induction l using mapPixels.induct f with
  | case1 r g b a rest ih => simp [mapPixels, ih]
  | case2 l h => simp [mapPixels]

/-- Reading the four bytes of pixel `k` after the traversal gives the
four channels of the transformed pixel. -/
lemma mapPixels_get4 (f : Pixel → Pixel) :
    ∀ (k : ℕ) (l : List ℕ) (r g b a : ℕ),
      l.get? (4 * k) = some r → l.get? (4 * k + 1) = some g →
        l.get? (4 * k + 2) = some b → l.get? (4 * k + 3) = some a →
      (mapPixels f l).get? (4 * k) = some (f ⟨r, g, b, a⟩).r ∧
        (mapPixels f l).get? (4 * k + 1) = some (f ⟨r, g, b, a⟩).g ∧
        (mapPixels f l).get? (4 * k + 2) = some (f ⟨r, g, b, a⟩).b ∧
        (mapPixels f l).get? (4 * k + 3) = some (f ⟨r, g, b, a⟩).a := by
  intro k
  induction k with
  | zero =>
    intro l r g b a h1 h2 h3 h4
    rcases l with _ | ⟨r0, l⟩
    · simp [List.get?] at h1
    rcases l with _ | ⟨g0, l⟩
    · simp [List.get?] at h2
    rcases l with _ | ⟨b0, l⟩
    · simp [List.get?] at h3
    rcases l with _ | ⟨a0, l⟩
    · simp [List.get?] at h4
    simp only [Nat.mul_zero, Nat.zero_add, List.get?] at h1 h2 h3 h4
    obtain rfl : r0 = r := Option.some.inj h1
    obtain rfl : g0 = g := Option.some.inj h2
    obtain rfl : b0 = b := Option.some.inj h3
    obtain rfl : a0 = a := Option.some.inj h4
    rw [mapPixels]
    exact ⟨rfl, rfl, rfl, rfl⟩
  | succ k ih =>
    intro l r g b a h1 h2 h3 h4
    have e0 : 4 * (k + 1) = 4 * k + 4 := by ring
    have e1 : 4 * (k + 1) + 1 = (4 * k + 1) + 4 := by ring
    have e2 : 4 * (k + 1) + 2 = (4 * k + 2) + 4 := by ring
    have e3 : 4 * (k + 1) + 3 = (4 * k + 3) + 4 := by ring
    rcases l with _ | ⟨r0, l⟩
    · simp [List.get?] at h1
    rcases l with _ | ⟨g0, l⟩
    · rw [e0] at h1
      exact absurd h1 (by simp [List.get?])
    rcases l with _ | ⟨b0, l⟩
    · rw [e0] at h1
      exact absurd h1 (by simp [List.get?])
    rcases l with _ | ⟨a0, l⟩
    · rw [e0] at h1
      exact absurd h1 (by simp [List.get?])
    rw [e0] at h1
    rw [e1] at h2
    rw [e2] at h3
    rw [e3] at h4
    have h1r : l.get? (4 * k) = some r := h1
    have h2r : l.get? (4 * k + 1) = some g := h2
    have h3r : l.get? (4 * k + 2) = some b := h3
    have h4r : l.get? (4 * k + 3) = some a := h4
    obtain ⟨c1, c2, c3, c4⟩ := ih l r g b a h1r h2r h3r h4r
    rw [mapPixels]
    refine ⟨?_, ?_, ?_, ?_⟩
    · rw [e0]
      exact c1
    · rw [e1]
      exact c2
    · rw [e2]
      exact c3
    · rw [e3]
      exact c4

/-- Bytes of an incomplete trailing pixel are left untouched. -/
lemma mapPixels_get_tail (f : Pixel → Pixel) :
    ∀ (k : ℕ) (l : List ℕ) (j : ℕ), j < 4 → l.get? (4 * k + 3) = none →
      (mapPixels f l).get? (4 * k + j) = l.get? (4 * k + j) := by
  intro k
  induction k with
  | zero =>
    intro l j hj h4
    rcases l with _ | ⟨r0, l⟩
    · simp [mapPixels]
    rcases l with _ | ⟨g0, l⟩
    · simp [mapPixels]
    rcases l with _ | ⟨b0, l⟩
    · simp [mapPixels]
    rcases l with _ | ⟨a0, l⟩
    · simp [mapPixels]
    · simp [List.get?] at h4
  | succ k ih =>
    intro l j hj h4
    have e3 : 4 * (k + 1) + 3 = (4 * k + 3) + 4 := by ring
    have ej : 4 * (k + 1) + j = (4 * k + j) + 4 := by ring
    rcases l with _ | ⟨r0, l⟩
    · simp [mapPixels]
    rcases l with _ | ⟨g0, l⟩
    · simp [mapPixels]
    rcases l with _ | ⟨b0, l⟩
    · simp [mapPixels]
    rcases l with _ | ⟨a0, l⟩
    · simp [mapPixels]
    rw [e3] at h4
    rw [mapPixels, ej]
    exact ih l j hj h4

/-! ### Pixel-level characterisations -/

/-- A fully transparent pixel is skipped by the recolor loop. -/
lemma remapPixel_alpha0 (hs : HideSet) (r g b : ℕ) :
    remapPixel hs ⟨r, g, b, 0⟩ = ⟨r, g, b, 0⟩ := rfl

/-- A fully transparent pixel is skipped by the designation filter. -/
lemma desigPixel_alpha0 (hs : HideVals) (r g b : ℕ) :
    desigPixel hs ⟨r, g, b, 0⟩ = ⟨r, g, b, 0⟩ := rfl

/-- `getD` at an in-range position is a member of the list. -/
lemma getD_mem {α : Type} (l : List α) (n : ℕ) (d : α) (h : n < l.length) :
    l.getD n d ∈ l := by
  induction l generalizing n with
  | nil => simp at h
  | cons x t ih =>
    cases n with
    | zero => exact List.mem_cons_self _ _
    | succ n => exact List.mem_cons_of_mem _ (ih n (by simpa using h))

/-- Unfolding of `remapPixel` on a visible pixel once the
classification result is known. -/
lemma remapPixel_eq (hs : HideSet) (p : Pixel) (bi d : ℤ)
    (ha : ¬p.a = 0)
    (hbm : bestMatch ⟨(p.r : ℤ), (p.g : ℤ), (p.b : ℤ)⟩ (COLOR_MAP.map ColorMapping.src) =
      (bi, some d)) :
    remapPixel hs p =
      if d < 12000 then
        if memHide hs bi then ⟨p.r, p.g, p.b, 0⟩
        else
          if d = 0 then
            ⟨storeByte (COLOR_MAP.getD bi.toNat ⟨⟨0, 0, 0⟩, ⟨0, 0, 0⟩⟩).dst.r,
             storeByte (COLOR_MAP.getD bi.toNat ⟨⟨0, 0, 0⟩, ⟨0, 0, 0⟩⟩).dst.g,
             storeByte (COLOR_MAP.getD bi.toNat ⟨⟨0, 0, 0⟩, ⟨0, 0, 0⟩⟩).dst.b, p.a⟩
          else
            ⟨storeByte (roundBlend (p.r : ℤ)
                ((COLOR_MAP.getD bi.toNat ⟨⟨0, 0, 0⟩, ⟨0, 0, 0⟩⟩).dst.r -
                 (COLOR_MAP.getD bi.toNat ⟨⟨0, 0, 0⟩, ⟨0, 0, 0⟩⟩).src.r) d.toNat),
             storeByte (roundBlend (p.g : ℤ)
                ((COLOR_MAP.getD bi.toNat ⟨⟨0, 0, 0⟩, ⟨0, 0, 0⟩⟩).dst.g -
                 (COLOR_MAP.getD bi.toNat ⟨⟨0, 0, 0⟩, ⟨0, 0, 0⟩⟩).src.g) d.toNat),
             storeByte (roundBlend (p.b : ℤ)
                ((COLOR_MAP.getD bi.toNat ⟨⟨0, 0, 0⟩, ⟨0, 0, 0⟩⟩).dst.b -
                 (COLOR_MAP.getD bi.toNat ⟨⟨0, 0, 0⟩, ⟨0, 0, 0⟩⟩).src.b) d.toNat), p.a⟩
      else p := by
  unfold remapPixel
  simp only [if_neg ha, hbm]

/-- Unfolding of `desigPixel` on a visible pixel once the
classification result is known. -/
lemma desigPixel_eq (hs : HideVals) (p : Pixel) (bi d : ℤ)
    (ha : ¬p.a = 0)
    (hbm : bestMatch ⟨(p.r : ℤ), (p.g : ℤ), (p.b : ℤ)⟩ DESIG_COLORS = (bi, some d)) :
    desigPixel hs p =
      if d < 12000 ∧ memHideVals hs bi = true then ⟨p.r, p.g, p.b, 0⟩ else p := by
  unfold desigPixel
  simp only [if_neg ha, hbm]

/-- The designation filter never changes the colour channels. -/
lemma desigPixel_rgb (hs : HideVals) (p : Pixel) :
    (desigPixel hs p).r = p.r ∧ (desigPixel hs p).g = p.g ∧ (desigPixel hs p).b = p.b := by
  by_cases ha : p.a = 0
  · obtain ⟨r, g, b, a⟩ := p
    simp only at ha
    subst ha
    rw [desigPixel_alpha0]
    exact ⟨rfl, rfl, rfl⟩
  · rcases hbm : bestMatch ⟨(p.r : ℤ), (p.g : ℤ), (p.b : ℤ)⟩ DESIG_COLORS with ⟨bi, _ | d⟩
    · unfold desigPixel
      simp only [if_neg ha, hbm]
      simp
    · rw [desigPixel_eq hs p bi d ha hbm]
      by_cases hcond : d < 12000 ∧ memHideVals hs bi = true
      · rw [if_pos hcond]
        exact ⟨rfl, rfl, rfl⟩
      · rw [if_neg hcond]
        exact ⟨rfl, rfl, rfl⟩

/-- The plow palette channel maps, read through `getD` positions. -/
lemma COLOR_MAP_src_getD (n : ℕ) (h : n < 7) :
    (COLOR_MAP.map ColorMapping.src).getD n ⟨0, 0, 0⟩ =
      (COLOR_MAP.getD n ⟨⟨0, 0, 0⟩, ⟨0, 0, 0⟩⟩).src := by
  interval_cases n <;> rfl

/-- Source length facts for the two palettes. -/
lemma palette_lengths :
    (COLOR_MAP.map ColorMapping.src).length = 7 ∧ COLOR_MAP.length = 7 ∧
      DESIG_COLORS.length = 4 := by decide

/-- The destination colours are bytes, so the exact-match store does
not wrap. -/
lemma COLOR_MAP_dst_bytes :
    ∀ cm ∈ COLOR_MAP, storeByte cm.dst.r = cm.dst.r.toNat ∧
      storeByte cm.dst.g = cm.dst.g.toNat ∧ storeByte cm.dst.b = cm.dst.b.toNat := by decide

/-! ### Facts about the cache map operations -/

/-- A key just stored is found with its new entry. -/
lemma mapFind_mapPut_self (key : String) (v : CacheEntry) (c : TileCache) :
    mapFind key (mapPut key v c) = some v := by
  induction c with
  | nil => simp [mapPut, mapFind]
  | cons kv rest ih =>
    obtain ⟨k, w⟩ := kv
    by_cases hk : k = key
    · simp [mapPut, mapFind, hk]
    · simp [mapPut, mapFind, hk, ih]

/-- Storing one key leaves every other key unchanged. -/
lemma mapFind_mapPut_other (k2 key : String) (v : CacheEntry) (c : TileCache)
    (hne : k2 ≠ key) : mapFind k2 (mapPut key v c) = mapFind k2 c := by
  induction c with
  | nil => simp [mapPut, mapFind, Ne.symm hne]
  | cons kv rest ih =>
    obtain ⟨k, w⟩ := kv
    by_cases hk : k = key
    · subst hk
      rw [mapPut, if_pos rfl, mapFind, mapFind, if_neg (Ne.symm hne), if_neg (Ne.symm hne)]
    · rw [mapPut, if_neg hk, mapFind, mapFind]
      by_cases hk2 : k = k2
      · rw [if_pos hk2, if_pos hk2]
      · rw [if_neg hk2, if_neg hk2, ih]

/-- A deleted key is no longer found. -/
lemma mapFind_mapErase_self (key : String) (c : TileCache) :
    mapFind key (mapErase key c) = none := by
  induction c with
  | nil => rfl
  | cons kv rest ih =>
    obtain ⟨k, w⟩ := kv
    by_cases hk : k = key
    · rw [mapErase, if_pos hk]
      exact ih
    · rw [mapErase, if_neg hk, mapFind, if_neg hk]
      exact ih

/-- Deleting one key leaves every other key unchanged. -/
lemma mapFind_mapErase_other (k2 key : String) (c : TileCache) (hne : k2 ≠ key) :
    mapFind k2 (mapErase key c) = mapFind k2 c := by
  induction c with
  | nil => rfl
  | cons kv rest ih =>
    obtain ⟨k, w⟩ := kv
    by_cases hk : k = key
    · subst hk
      rw [mapErase, if_pos rfl, mapFind, if_neg (Ne.symm hne)]
      exact ih
    · rw [mapErase, if_neg hk, mapFind, mapFind]
      by_cases hk2 : k = k2
      · rw [if_pos hk2, if_pos hk2]
      · rw [if_neg hk2, if_neg hk2]
        exact ih

/-- Storing an absent key appends the entry at the end (the
most-recently-used position). -/
lemma mapPut_absent (key : String) (v : CacheEntry) (c : TileCache)
    (h : mapFind key c = none) : mapPut key v c = c ++ [(key, v)] := by
  induction c with
  | nil => simp [mapPut]
  | cons kv rest ih =>
    obtain ⟨k, w⟩ := kv
    by_cases hk : k = key
    · rw [mapFind, if_pos hk] at h
      cases h
    · rw [mapFind, if_neg hk] at h
      simp [mapPut, hk, ih h]

/-- Deletion does not lengthen the map. -/
lemma mapErase_length_le (key : String) (c : TileCache) :
    (mapErase key c).length ≤ c.length := by
  induction c with
  | nil => exact Nat.le_refl _
  | cons kv rest ih =>
    obtain ⟨k, w⟩ := kv
    by_cases hk : k = key
    · rw [mapErase, if_pos hk]
      exact le_trans ih (by rw [List.length_cons]; omega)
    · rw [mapErase, if_neg hk, List.length_cons, List.length_cons]
      exact Nat.succ_le_succ ih

/-- Deleting a present key shortens the map. -/
lemma mapErase_length_lt (key : String) (c : TileCache) (e : CacheEntry)
    (h : mapFind key c = some e) : (mapErase key c).length < c.length := by
  induction c with
  | nil => cases h
  | cons kv rest ih =>
    obtain ⟨k, w⟩ := kv
    by_cases hk : k = key
    · rw [mapErase, if_pos hk, List.length_cons]
      exact Nat.lt_succ_of_le (mapErase_length_le key rest)
    · rw [mapFind, if_neg hk] at h
      rw [mapErase, if_neg hk, List.length_cons, List.length_cons]
      exact Nat.succ_lt_succ (ih h)

/-- Storing grows the map by at most one entry. -/
lemma mapPut_length_le (key : String) (v : CacheEntry) (c : TileCache) :
    (mapPut key v c).length ≤ c.length + 1 := by
  induction c with
  | nil => exact Nat.le_refl _
  | cons kv rest ih =>
    obtain ⟨k, w⟩ := kv
    by_cases hk : k = key
    · rw [mapPut, if_pos hk, List.length_cons, List.length_cons]
      omega
    · rw [mapPut, if_neg hk, List.length_cons, List.length_cons]
      exact Nat.succ_le_succ ih

/-! ### Behaviour of the cache interface -/

/-- Dispatch of `getCachedTile` when the key is absent. -/
lemma getCachedTile_eq_none (key : String) (now : ℕ) (c : TileCache)
    (hf : mapFind key c = none) : getCachedTile key now c = (none, c) := by
  unfold getCachedTile
  rw [hf]

/-- Dispatch of `getCachedTile` when the key is present. -/
lemma getCachedTile_eq_found (key : String) (now : ℕ) (c : TileCache) (e : CacheEntry)
    (hf : mapFind key c = some e) :
    getCachedTile key now c =
      if TILE_CACHE_TTL < now - e.timestamp then (none, mapErase key c)
      else (some e.buffer, mapPut key e (mapErase key c)) := by
  unfold getCachedTile
  rw [hf]

/-- A cache hit: the returned bytes belong to an unexpired entry, and
the entry is moved to the most-recently-used (last) position. -/
lemma getCachedTile_hit (key : String) (now : ℕ) (c : TileCache) (b : List ℕ)
    (h : (getCachedTile key now c).1 = some b) :
    ∃ e, mapFind key c = some e ∧ e.buffer = b ∧
      now - e.timestamp ≤ TILE_CACHE_TTL ∧
      (getCachedTile key now c).2 = mapErase key c ++ [(key, e)] := by
  cases hf : mapFind key c with
  | none =>
    rw [getCachedTile_eq_none key now c hf] at h
    cases h
  | some e =>
    rw [getCachedTile_eq_found key now c e hf] at h ⊢
    by_cases hexp : TILE_CACHE_TTL < now - e.timestamp
    · rw [if_pos hexp] at h
      cases h
    · rw [if_neg hexp] at h ⊢
      refine ⟨e, rfl, Option.some.inj h, by omega, ?_⟩
      show mapPut key e (mapErase key c) = mapErase key c ++ [(key, e)]
      exact mapPut_absent key e (mapErase key c) (mapFind_mapErase_self key c)

/-- A lookup of an expired entry returns absence and deletes it. -/
lemma getCachedTile_expired (key : String) (now : ℕ) (c : TileCache) (e : CacheEntry)
    (hf : mapFind key c = some e) (hexp : TILE_CACHE_TTL < now - e.timestamp) :
    getCachedTile key now c = (none, mapErase key c) := by
  rw [getCachedTile_eq_found key now c e hf, if_pos hexp]

/-- One cache operation keeps the size within the capacity bound. -/
lemma applyOp_length (c : TileCache) (op : CacheOp) (h : c.length ≤ TILE_CACHE_MAX) :
    (applyOp c op).length ≤ TILE_CACHE_MAX := by
  cases op with
  | get key now =>
    show (getCachedTile key now c).2.length ≤ TILE_CACHE_MAX
    cases hf : mapFind key c with
    | none =>
      rw [getCachedTile_eq_none key now c hf]
      exact h
    | some e =>
      rw [getCachedTile_eq_found key now c e hf]
      by_cases hexp : TILE_CACHE_TTL < now - e.timestamp
      · rw [if_pos hexp]
        exact le_trans (mapErase_length_le key c) h
      · rw [if_neg hexp]
        show (mapPut key e (mapErase key c)).length ≤ TILE_CACHE_MAX
        have h1 := mapErase_length_lt key c e hf
        have h2 := mapPut_length_le key e (mapErase key c)
        omega
  | put key buf now =>
    show (setCachedTile key buf now c).length ≤ TILE_CACHE_MAX
    unfold setCachedTile
    by_cases hcap : TILE_CACHE_MAX ≤ c.length
    · rw [if_pos hcap]
      cases c with
      | nil => simp [TILE_CACHE_MAX] at hcap
      | cons kv rest =>
        obtain ⟨k0, e0⟩ := kv
        show (mapPut key ⟨buf, now⟩ (mapErase k0 ((k0, e0) :: rest))).length ≤ TILE_CACHE_MAX
        have h1 : (mapErase k0 ((k0, e0) :: rest)).length ≤ rest.length := by
          rw [mapErase, if_pos rfl]
          exact mapErase_length_le k0 rest
        have h2 := mapPut_length_le key ⟨buf, now⟩ (mapErase k0 ((k0, e0) :: rest))
        have h3 : ((k0, e0) :: rest).length = rest.length + 1 := rfl
        omega
    · rw [if_neg hcap]
      show (mapPut key ⟨buf, now⟩ c).length ≤ TILE_CACHE_MAX
      have h2 := mapPut_length_le key ⟨buf, now⟩ c
      omega

/-- Every reachable cache state respects the capacity bound. -/
lemma execOps_length (ops : List CacheOp) : (execOps ops).length ≤ TILE_CACHE_MAX := by
  suffices h : ∀ c, c.length ≤ TILE_CACHE_MAX →
      (ops.foldl applyOp c).length ≤ TILE_CACHE_MAX by
    exact h [] (by simp [TILE_CACHE_MAX])
  induction ops with
  | nil => exact fun c hc => hc
  | cons op rest ih => exact fun c hc => ih (applyOp c op) (applyOp_length c op hc)

/-! ### Index helpers -/

/-- A successful read is in range. -/
lemma get?_lt_of_some {l : List ℕ} {n x : ℕ} (h : l.get? n = some x) : n < l.length := by
  by_contra hcon
  push_neg at hcon
  rw [List.get?_eq_none.mpr hcon] at h
  cases h

/-- An in-range read succeeds. -/
lemma get?_some_of_lt {l : List ℕ} {n : ℕ} (h : n < l.length) : ∃ x, l.get? n = some x := by
  cases hg : l.get? n with
  | none => exact absurd (List.get?_eq_none.mp hg) (by omega)
  | some x => exact ⟨x, rfl⟩

/-! ### The claims -/

/-- Claim C7: for every input buffer and hide-set, both `remapPixels`
and `filterDesigPixels` leave every pixel whose alpha channel equals 0
byte-identical in all four channels (the pixel is skipped without
inspecting its RGB). -/
theorem C7_alpha0_pixels_untouched (data : List ℕ) (hs : HideSet) (hsv : HideVals) (k : ℕ)
    (halpha : data.get? (4 * k + 3) = some 0) :
    ∀ j, j < 4 →
      (remapPixels data hs).get? (4 * k + j) = data.get? (4 * k + j) ∧
      (filterDesigPixels data hsv).get? (4 * k + j) = data.get? (4 * k + j) := by
  intro j hj
  have hlen3 : 4 * k + 3 < data.length := get?_lt_of_some halpha
  obtain ⟨r, hr⟩ := get?_some_of_lt (l := data) (n := 4 * k) (by omega)
  obtain ⟨g, hg⟩ := get?_some_of_lt (l := data) (n := 4 * k + 1) (by omega)
  obtain ⟨b, hb⟩ := get?_some_of_lt (l := data) (n := 4 * k + 2) (by omega)
  have hremap := mapPixels_get4 (remapPixel hs) k data r g b 0 hr hg hb halpha
  have hdesig := mapPixels_get4 (desigPixel hsv) k data r g b 0 hr hg hb halpha
  rw [remapPixel_alpha0] at hremap
  rw [desigPixel_alpha0] at hdesig
  interval_cases j
  · exact ⟨hremap.1.trans hr.symm, hdesig.1.trans hr.symm⟩
  · exact ⟨hremap.2.1.trans hg.symm, hdesig.2.1.trans hg.symm⟩
  · exact ⟨hremap.2.2.1.trans hb.symm, hdesig.2.2.1.trans hb.symm⟩
  · exact ⟨hremap.2.2.2.trans halpha.symm, hdesig.2.2.2.trans halpha.symm⟩

/-- Witness for C7 at a concrete transparent pixel. -/
theorem C7_alpha0_pixels_untouched_witness :
    ((remapPixels [1, 2, 3, 0] none).get? 3 = [1, 2, 3, 0].get? 3 ∧
      (filterDesigPixels [1, 2, 3, 0] [some 0]).get? 3 = [1, 2, 3, 0].get? 3) ∧
    ((remapPixels [1, 2, 3, 0] none).get? 0 = [1, 2, 3, 0].get? 0 ∧
      (filterDesigPixels [1, 2, 3, 0] [some 0]).get? 0 = [1, 2, 3, 0].get? 0) := by
  have h := C7_alpha0_pixels_untouched [1, 2, 3, 0] none [some 0] 0 (by decide)
  exact ⟨h 3 (by decide), h 0 (by decide)⟩

/-- Claim C6: `filterDesigPixels` never writes an R, G or B byte; it
writes only alpha, setting it to 0 exactly for the non-transparent
pixels whose nearest designation distance is below 12000 and whose
classified index is in the hide set; every other pixel is
byte-identical. -/
theorem C6_desig_filter_alpha_only (data : List ℕ) (hs : HideVals) (k : ℕ) :
    (filterDesigPixels data hs).length = data.length ∧
    (∀ j, j < 3 →
      (filterDesigPixels data hs).get? (4 * k + j) = data.get? (4 * k + j)) ∧
    (∀ r g b a bi d,
      data.get? (4 * k) = some r → data.get? (4 * k + 1) = some g →
      data.get? (4 * k + 2) = some b → data.get? (4 * k + 3) = some a →
      bestMatch ⟨(r : ℤ), (g : ℤ), (b : ℤ)⟩ DESIG_COLORS = (bi, some d) →
      (filterDesigPixels data hs).get? (4 * k + 3) =
        some (if a ≠ 0 ∧ d < 12000 ∧ memHideVals hs bi = true then 0 else a)) := by
  refine ⟨mapPixels_length _ data, ?_, ?_⟩
  · intro j hj
    cases hg4 : data.get? (4 * k + 3) with
    | none => exact mapPixels_get_tail (desigPixel hs) k data j (by omega) hg4
    | some a =>
      have hlen3 : 4 * k + 3 < data.length := get?_lt_of_some hg4
      obtain ⟨r, hr⟩ := get?_some_of_lt (l := data) (n := 4 * k) (by omega)
      obtain ⟨g, hg⟩ := get?_some_of_lt (l := data) (n := 4 * k + 1) (by omega)
      obtain ⟨b, hb⟩ := get?_some_of_lt (l := data) (n := 4 * k + 2) (by omega)
      have h4 := mapPixels_get4 (desigPixel hs) k data r g b a hr hg hb hg4
      have hrgb := desigPixel_rgb hs ⟨r, g, b, a⟩
      interval_cases j
      · have e : some (desigPixel hs ⟨r, g, b, a⟩ : Pixel).r = data.get? (4 * k) := by
          rw [hrgb.1, hr]
        exact h4.1.trans e
      · have e : some (desigPixel hs ⟨r, g, b, a⟩ : Pixel).g = data.get? (4 * k + 1) := by
          rw [hrgb.2.1, hg]
        exact h4.2.1.trans e
      · have e : some (desigPixel hs ⟨r, g, b, a⟩ : Pixel).b = data.get? (4 * k + 2) := by
          rw [hrgb.2.2, hb]
        exact h4.2.2.1.trans e
  · intro r g b a bi d hr hg hb ha hbm
    have h4 := mapPixels_get4 (desigPixel hs) k data r g b a hr hg hb ha
    by_cases hvis : a = 0
    · subst hvis
      rw [desigPixel_alpha0] at h4
      exact h4.2.2.2.trans (by rw [if_neg (fun hc => hc.1 rfl)])
    · rw [desigPixel_eq hs ⟨r, g, b, a⟩ bi d hvis hbm] at h4
      by_cases hcond : d < 12000 ∧ memHideVals hs bi = true
      · rw [if_pos hcond] at h4
        exact h4.2.2.2.trans (by rw [if_pos ⟨hvis, hcond.1, hcond.2⟩])
      · rw [if_neg hcond] at h4
        exact h4.2.2.2.trans (by rw [if_neg (fun hc => hcond ⟨hc.2.1, hc.2.2⟩)])

/-- Witness for C6 at a concrete matched pixel (exact Critical colour,
hidden category 0) and at an unmatched pixel. -/
theorem C6_desig_filter_alpha_only_witness :
    (filterDesigPixels [0xbf, 0x40, 0x2e, 255] [some 0]).length = 4 ∧
    (filterDesigPixels [0xbf, 0x40, 0x2e, 255] [some 0]).get? 0 =
      [0xbf, 0x40, 0x2e, 255].get? 0 ∧
    (filterDesigPixels [0xbf, 0x40, 0x2e, 255] [some 0]).get? 3 =
      some (if (255 : ℕ) ≠ 0 ∧ (0 : ℤ) < 12000 ∧ memHideVals [some 0] 0 = true
        then 0 else 255) := by
  have h := C6_desig_filter_alpha_only [0xbf, 0x40, 0x2e, 255] [some 0] 0
  refine ⟨h.1, (h.2.1 0 (by decide)), ?_⟩
  exact h.2.2 0xbf 0x40 0x2e 255 0 0 rfl rfl rfl rfl (by decide)

/-- Claim C5: a non-transparent pixel within the threshold whose
classified index is in the hide set gets alpha 0 from `remapPixels`,
with its RGB bytes left unchanged, in both the exact-match and the
interpolation situation. -/
theorem C5_hide_forces_alpha0 (data : List ℕ) (hs : HideSet) (k : ℕ)
    (r g b a : ℕ) (bi d : ℤ)
    (hr : data.get? (4 * k) = some r) (hg : data.get? (4 * k + 1) = some g)
    (hb : data.get? (4 * k + 2) = some b) (ha : data.get? (4 * k + 3) = some a)
    (hvis : a ≠ 0)
    (hbm : bestMatch ⟨(r : ℤ), (g : ℤ), (b : ℤ)⟩ (COLOR_MAP.map ColorMapping.src) =
      (bi, some d))
    (hd : d < 12000) (hmem : memHide hs bi = true) :
    (remapPixels data hs).get? (4 * k + 3) = some 0 ∧
    (remapPixels data hs).get? (4 * k) = some r ∧
    (remapPixels data hs).get? (4 * k + 1) = some g ∧
    (remapPixels data hs).get? (4 * k + 2) = some b := by
  have h4 := mapPixels_get4 (remapPixel hs) k data r g b a hr hg hb ha
  rw [remapPixel_eq hs ⟨r, g, b, a⟩ bi d hvis hbm, if_pos hd, if_pos hmem] at h4
  exact ⟨h4.2.2.2, h4.1, h4.2.1, h4.2.2.1⟩

/-- Witness for C5: the exact green pixel with category 0 hidden, and
an anti-aliased green pixel with category 0 hidden. -/
theorem C5_hide_forces_alpha0_witness :
    ((remapPixels [0, 128, 0, 255] (some [some 0])).get? 3 = some 0 ∧
      (remapPixels [0, 128, 0, 255] (some [some 0])).get? 0 = some 0) ∧
    ((remapPixels [3, 130, 2, 9] (some [some 0])).get? 3 = some 0 ∧
      (remapPixels [3, 130, 2, 9] (some [some 0])).get? 0 = some 3) := by
  have h1 := C5_hide_forces_alpha0 [0, 128, 0, 255] (some [some 0]) 0 0 128 0 255 0 0
    rfl rfl rfl rfl (by decide) (by decide) (by decide) (by decide)
  have h2 := C5_hide_forces_alpha0 [3, 130, 2, 9] (some [some 0]) 0 3 130 2 9 0 17
    rfl rfl rfl rfl (by decide) (by decide) (by decide) (by decide)
  exact ⟨⟨h1.1, h1.2.1⟩, ⟨h2.1, h2.2.1⟩⟩

/-- One interpolated channel: the stored byte equals the rounded
real-valued formula, which lies inside the byte range. -/
lemma interp_store_eq (cNat : ℕ) (s dch : ℤ) (d : ℤ)
    (hc255 : cNat ≤ 255) (hok : chanOK s dch)
    (he : ((cNat : ℤ) - s) * ((cNat : ℤ) - s) ≤ d) (hd0 : 0 < d) (hd : d < 12000) :
    storeByte (roundBlend (cNat : ℤ) (dch - s) d.toNat) =
      (⌊(cNat : ℝ) + ((dch - s : ℤ) : ℝ) *
        max 0 (1 - Real.sqrt ((d : ℤ) : ℝ) / 110) + 1 / 2⌋).toNat ∧
    0 ≤ ⌊(cNat : ℝ) + ((dch - s : ℤ) : ℝ) *
        max 0 (1 - Real.sqrt ((d : ℤ) : ℝ) / 110) + 1 / 2⌋ ∧
    ⌊(cNat : ℝ) + ((dch - s : ℤ) : ℝ) *
        max 0 (1 - Real.sqrt ((d : ℤ) : ℝ) / 110) + 1 / 2⌋ ≤ 255 := by
  have hDnat0 : 0 < d.toNat := by omega
  have hDnat : d.toNat < 12000 := by omega
  have htn : (d.toNat : ℤ) = d := Int.toNat_of_nonneg (by omega)
  have hcast : ((d.toNat : ℕ) : ℝ) = ((d : ℤ) : ℝ) := by
    rw [show ((d.toNat : ℕ) : ℝ) = ((d.toNat : ℤ) : ℝ) by push_cast; ring, htn]
  have henat : ((cNat : ℤ) - s) * ((cNat : ℤ) - s) ≤ (d.toNat : ℤ) := by
    rw [htn]
    exact he
  have hb := roundBlend_byte (cNat : ℤ) s dch d.toNat (by positivity)
    (by exact_mod_cast hc255) hok henat hDnat0 hDnat
  have heq := roundBlend_eq_floor (cNat : ℤ) (dch - s) d.toNat
  rw [hcast, show (((cNat : ℤ)) : ℝ) = (cNat : ℝ) by push_cast; ring] at heq
  have h0 := hb.1
  have h255 := hb.2.1
  have hsb := hb.2.2
  rw [heq] at h0 h255
  nth_rewrite 2 [heq] at hsb
  exact ⟨by omega, h0, h255⟩

/-- Claim C1: the three-case recolor postcondition of `remapPixels` for
a non-transparent, non-hidden pixel: RGB unchanged when every palette
source is at squared distance at least 12000; outright replacement by
the paired destination at distance 0; and the rounded interpolation
formula for distances strictly between 0 and 12000. -/
theorem C1_remap_three_cases (data : List ℕ) (hs : HideSet) (k : ℕ)
    (r g b a : ℕ) (bi d : ℤ)
    (hr : data.get? (4 * k) = some r) (hg : data.get? (4 * k + 1) = some g)
    (hb : data.get? (4 * k + 2) = some b) (ha : data.get? (4 * k + 3) = some a)
    (hr255 : r ≤ 255) (hg255 : g ≤ 255) (hb255 : b ≤ 255)
    (hvis : a ≠ 0)
    (hbm : bestMatch ⟨(r : ℤ), (g : ℤ), (b : ℤ)⟩ (COLOR_MAP.map ColorMapping.src) =
      (bi, some d))
    (hmem : memHide hs bi = false) :
    ((∀ cm ∈ COLOR_MAP, 12000 ≤ distSq ⟨(r : ℤ), (g : ℤ), (b : ℤ)⟩ cm.src) →
      (remapPixels data hs).get? (4 * k) = some r ∧
      (remapPixels data hs).get? (4 * k + 1) = some g ∧
      (remapPixels data hs).get? (4 * k + 2) = some b ∧
      (remapPixels data hs).get? (4 * k + 3) = some a) ∧
    (d = 0 →
      (COLOR_MAP.getD bi.toNat ⟨⟨0, 0, 0⟩, ⟨0, 0, 0⟩⟩).src = ⟨(r : ℤ), (g : ℤ), (b : ℤ)⟩ ∧
      (remapPixels data hs).get? (4 * k) =
        some (COLOR_MAP.getD bi.toNat ⟨⟨0, 0, 0⟩, ⟨0, 0, 0⟩⟩).dst.r.toNat ∧
      (remapPixels data hs).get? (4 * k + 1) =
        some (COLOR_MAP.getD bi.toNat ⟨⟨0, 0, 0⟩, ⟨0, 0, 0⟩⟩).dst.g.toNat ∧
      (remapPixels data hs).get? (4 * k + 2) =
        some (COLOR_MAP.getD bi.toNat ⟨⟨0, 0, 0⟩, ⟨0, 0, 0⟩⟩).dst.b.toNat ∧
      (remapPixels data hs).get? (4 * k + 3) = some a) ∧
    (0 < d → d < 12000 →
      (remapPixels data hs).get? (4 * k) =
        some (⌊(r : ℝ) + (((COLOR_MAP.getD bi.toNat ⟨⟨0, 0, 0⟩, ⟨0, 0, 0⟩⟩).dst.r -
            (COLOR_MAP.getD bi.toNat ⟨⟨0, 0, 0⟩, ⟨0, 0, 0⟩⟩).src.r : ℤ) : ℝ) *
          max 0 (1 - Real.sqrt ((d : ℤ) : ℝ) / 110) + 1 / 2⌋).toNat ∧
      (remapPixels data hs).get? (4 * k + 1) =
        some (⌊(g : ℝ) + (((COLOR_MAP.getD bi.toNat ⟨⟨0, 0, 0⟩, ⟨0, 0, 0⟩⟩).dst.g -
            (COLOR_MAP.getD bi.toNat ⟨⟨0, 0, 0⟩, ⟨0, 0, 0⟩⟩).src.g : ℤ) : ℝ) *
          max 0 (1 - Real.sqrt ((d : ℤ) : ℝ) / 110) + 1 / 2⌋).toNat ∧
      (remapPixels data hs).get? (4 * k + 2) =
        some (⌊(b : ℝ) + (((COLOR_MAP.getD bi.toNat ⟨⟨0, 0, 0⟩, ⟨0, 0, 0⟩⟩).dst.b -
            (COLOR_MAP.getD bi.toNat ⟨⟨0, 0, 0⟩, ⟨0, 0, 0⟩⟩).src.b : ℤ) : ℝ) *
          max 0 (1 - Real.sqrt ((d : ℤ) : ℝ) / 110) + 1 / 2⌋).toNat ∧
      (remapPixels data hs).get? (4 * k + 3) = some a) := by
  obtain ⟨hbi0, hlen, hdist⟩ :=
    bestMatch_spec ⟨(r : ℤ), (g : ℤ), (b : ℤ)⟩ (COLOR_MAP.map ColorMapping.src) bi d hbm
  rw [palette_lengths.1] at hlen
  rw [COLOR_MAP_src_getD bi.toNat hlen] at hdist
  have hmemrw : ¬(memHide hs bi = true) := by simp [hmem]
  have hcmmem : COLOR_MAP.getD bi.toNat ⟨⟨0, 0, 0⟩, ⟨0, 0, 0⟩⟩ ∈ COLOR_MAP :=
    getD_mem COLOR_MAP bi.toNat ⟨⟨0, 0, 0⟩, ⟨0, 0, 0⟩⟩ (by rw [palette_lengths.2.1]; omega)
  have h4 := mapPixels_get4 (remapPixel hs) k data r g b a hr hg hb ha
  rw [remapPixel_eq hs ⟨r, g, b, a⟩ bi d hvis hbm] at h4
  refine ⟨?_, ?_, ?_⟩
  · intro hfar
    have hd12 : 12000 ≤ d := by
      have := hfar _ hcmmem
      rw [hdist] at this
      exact this
    have h4a := h4
    rw [if_neg (by omega : ¬d < 12000)] at h4a
    exact ⟨h4a.1, h4a.2.1, h4a.2.2.1, h4a.2.2.2⟩
  · intro hd0
    have h4b := h4
    rw [if_pos (by omega : d < 12000), if_neg hmemrw, if_pos hd0] at h4b
    have hbytes := COLOR_MAP_dst_bytes _ hcmmem
    refine ⟨?_, ?_, ?_, ?_, h4b.2.2.2⟩
    · refine (distSq_eq_zero _ _ ?_).symm
      rw [hdist, hd0]
    · exact h4b.1.trans (congrArg some hbytes.1)
    · exact h4b.2.1.trans (congrArg some hbytes.2.1)
    · exact h4b.2.2.1.trans (congrArg some hbytes.2.2)
  · intro hdpos hdlt
    have h4c := h4
    rw [if_pos hdlt, if_neg hmemrw, if_neg (by omega : ¬d = 0)] at h4c
    have hok := COLOR_MAP_chanOK _ hcmmem
    have her : (((r : ℤ)) - (COLOR_MAP.getD bi.toNat ⟨⟨0, 0, 0⟩, ⟨0, 0, 0⟩⟩).src.r) *
        (((r : ℤ)) - (COLOR_MAP.getD bi.toNat ⟨⟨0, 0, 0⟩, ⟨0, 0, 0⟩⟩).src.r) ≤ d := by
      rw [← hdist]
      unfold distSq
      nlinarith [mul_self_nonneg ((g : ℤ) - (COLOR_MAP.getD bi.toNat ⟨⟨0, 0, 0⟩, ⟨0, 0, 0⟩⟩).src.g),
        mul_self_nonneg ((b : ℤ) - (COLOR_MAP.getD bi.toNat ⟨⟨0, 0, 0⟩, ⟨0, 0, 0⟩⟩).src.b)]
    have heg : (((g : ℤ)) - (COLOR_MAP.getD bi.toNat ⟨⟨0, 0, 0⟩, ⟨0, 0, 0⟩⟩).src.g) *
        (((g : ℤ)) - (COLOR_MAP.getD bi.toNat ⟨⟨0, 0, 0⟩, ⟨0, 0, 0⟩⟩).src.g) ≤ d := by
      rw [← hdist]
      unfold distSq
      nlinarith [mul_self_nonneg ((r : ℤ) - (COLOR_MAP.getD bi.toNat ⟨⟨0, 0, 0⟩, ⟨0, 0, 0⟩⟩).src.r),
        mul_self_nonneg ((b : ℤ) - (COLOR_MAP.getD bi.toNat ⟨⟨0, 0, 0⟩, ⟨0, 0, 0⟩⟩).src.b)]
    have heb : (((b : ℤ)) - (COLOR_MAP.getD bi.toNat ⟨⟨0, 0, 0⟩, ⟨0, 0, 0⟩⟩).src.b) *
        (((b : ℤ)) - (COLOR_MAP.getD bi.toNat ⟨⟨0, 0, 0⟩, ⟨0, 0, 0⟩⟩).src.b) ≤ d := by
      rw [← hdist]
      unfold distSq
      nlinarith [mul_self_nonneg ((r : ℤ) - (COLOR_MAP.getD bi.toNat ⟨⟨0, 0, 0⟩, ⟨0, 0, 0⟩⟩).src.r),
        mul_self_nonneg ((g : ℤ) - (COLOR_MAP.getD bi.toNat ⟨⟨0, 0, 0⟩, ⟨0, 0, 0⟩⟩).src.g)]
    have hir := interp_store_eq r (COLOR_MAP.getD bi.toNat ⟨⟨0, 0, 0⟩, ⟨0, 0, 0⟩⟩).src.r
      (COLOR_MAP.getD bi.toNat ⟨⟨0, 0, 0⟩, ⟨0, 0, 0⟩⟩).dst.r d hr255 hok.1 her hdpos hdlt
    have hig := interp_store_eq g (COLOR_MAP.getD bi.toNat ⟨⟨0, 0, 0⟩, ⟨0, 0, 0⟩⟩).src.g
      (COLOR_MAP.getD bi.toNat ⟨⟨0, 0, 0⟩, ⟨0, 0, 0⟩⟩).dst.g d hg255 hok.2.1 heg hdpos hdlt
    have hib := interp_store_eq b (COLOR_MAP.getD bi.toNat ⟨⟨0, 0, 0⟩, ⟨0, 0, 0⟩⟩).src.b
      (COLOR_MAP.getD bi.toNat ⟨⟨0, 0, 0⟩, ⟨0, 0, 0⟩⟩).dst.b d hb255 hok.2.2 heb hdpos hdlt
    exact ⟨h4c.1.trans (congrArg some hir.1), h4c.2.1.trans (congrArg some hig.1),
      h4c.2.2.1.trans (congrArg some hib.1), h4c.2.2.2⟩

/-- Witness for C1 at a far pixel (every palette source at distance at
least 12000: RGB is left unchanged). -/
theorem C1_remap_three_cases_witness :
    (remapPixels [200, 200, 200, 255] none).get? 0 = some 200 ∧
    (remapPixels [200, 200, 200, 255] none).get? 1 = some 200 ∧
    (remapPixels [200, 200, 200, 255] none).get? 2 = some 200 ∧
    (remapPixels [200, 200, 200, 255] none).get? 3 = some 255 := by
  have h := C1_remap_three_cases [200, 200, 200, 255] none 0 200 200 200 255 5 22449
    rfl rfl rfl rfl (by decide) (by decide) (by decide) (by decide) (by decide) (by decide)
  exact h.1 (by decide)

/-- Claim C10: on the interpolation branch the rounded value of every
channel lies within `0..255`, so the byte store into the buffer never
wraps modulo 256 and the stored byte equals the rounded real-valued
formula. -/
theorem C10_interp_range (r g b a : ℕ) (hs : HideSet) (bi d : ℤ)
    (hr255 : r ≤ 255) (hg255 : g ≤ 255) (hb255 : b ≤ 255)
    (hvis : ¬a = 0)
    (hbm : bestMatch ⟨(r : ℤ), (g : ℤ), (b : ℤ)⟩ (COLOR_MAP.map ColorMapping.src) =
      (bi, some d))
    (hmem : memHide hs bi = false) (hd0 : 0 < d) (hd : d < 12000) :
    (0 ≤ ⌊(r : ℝ) + (((COLOR_MAP.getD bi.toNat ⟨⟨0, 0, 0⟩, ⟨0, 0, 0⟩⟩).dst.r -
          (COLOR_MAP.getD bi.toNat ⟨⟨0, 0, 0⟩, ⟨0, 0, 0⟩⟩).src.r : ℤ) : ℝ) *
        max 0 (1 - Real.sqrt ((d : ℤ) : ℝ) / 110) + 1 / 2⌋ ∧
      ⌊(r : ℝ) + (((COLOR_MAP.getD bi.toNat ⟨⟨0, 0, 0⟩, ⟨0, 0, 0⟩⟩).dst.r -
          (COLOR_MAP.getD bi.toNat ⟨⟨0, 0, 0⟩, ⟨0, 0, 0⟩⟩).src.r : ℤ) : ℝ) *
        max 0 (1 - Real.sqrt ((d : ℤ) : ℝ) / 110) + 1 / 2⌋ ≤ 255 ∧
      ((remapPixel hs ⟨r, g, b, a⟩).r : ℤ) =
        ⌊(r : ℝ) + (((COLOR_MAP.getD bi.toNat ⟨⟨0, 0, 0⟩, ⟨0, 0, 0⟩⟩).dst.r -
          (COLOR_MAP.getD bi.toNat ⟨⟨0, 0, 0⟩, ⟨0, 0, 0⟩⟩).src.r : ℤ) : ℝ) *
        max 0 (1 - Real.sqrt ((d : ℤ) : ℝ) / 110) + 1 / 2⌋) ∧
    (0 ≤ ⌊(g : ℝ) + (((COLOR_MAP.getD bi.toNat ⟨⟨0, 0, 0⟩, ⟨0, 0, 0⟩⟩).dst.g -
          (COLOR_MAP.getD bi.toNat ⟨⟨0, 0, 0⟩, ⟨0, 0, 0⟩⟩).src.g : ℤ) : ℝ) *
        max 0 (1 - Real.sqrt ((d : ℤ) : ℝ) / 110) + 1 / 2⌋ ∧
      ⌊(g : ℝ) + (((COLOR_MAP.getD bi.toNat ⟨⟨0, 0, 0⟩, ⟨0, 0, 0⟩⟩).dst.g -
          (COLOR_MAP.getD bi.toNat ⟨⟨0, 0, 0⟩, ⟨0, 0, 0⟩⟩).src.g : ℤ) : ℝ) *
        max 0 (1 - Real.sqrt ((d : ℤ) : ℝ) / 110) + 1 / 2⌋ ≤ 255 ∧
      ((remapPixel hs ⟨r, g, b, a⟩).g : ℤ) =
        ⌊(g : ℝ) + (((COLOR_MAP.getD bi.toNat ⟨⟨0, 0, 0⟩, ⟨0, 0, 0⟩⟩).dst.g -
          (COLOR_MAP.getD bi.toNat ⟨⟨0, 0, 0⟩, ⟨0, 0, 0⟩⟩).src.g : ℤ) : ℝ) *
        max 0 (1 - Real.sqrt ((d : ℤ) : ℝ) / 110) + 1 / 2⌋) ∧
    (0 ≤ ⌊(b : ℝ) + (((COLOR_MAP.getD bi.toNat ⟨⟨0, 0, 0⟩, ⟨0, 0, 0⟩⟩).dst.b -
          (COLOR_MAP.getD bi.toNat ⟨⟨0, 0, 0⟩, ⟨0, 0, 0⟩⟩).src.b : ℤ) : ℝ) *
        max 0 (1 - Real.sqrt ((d : ℤ) : ℝ) / 110) + 1 / 2⌋ ∧
      ⌊(b : ℝ) + (((COLOR_MAP.getD bi.toNat ⟨⟨0, 0, 0⟩, ⟨0, 0, 0⟩⟩).dst.b -
          (COLOR_MAP.getD bi.toNat ⟨⟨0, 0, 0⟩, ⟨0, 0, 0⟩⟩).src.b : ℤ) : ℝ) *
        max 0 (1 - Real.sqrt ((d : ℤ) : ℝ) / 110) + 1 / 2⌋ ≤ 255 ∧
      ((remapPixel hs ⟨r, g, b, a⟩).b : ℤ) =
        ⌊(b : ℝ) + (((COLOR_MAP.getD bi.toNat ⟨⟨0, 0, 0⟩, ⟨0, 0, 0⟩⟩).dst.b -
          (COLOR_MAP.getD bi.toNat ⟨⟨0, 0, 0⟩, ⟨0, 0, 0⟩⟩).src.b : ℤ) : ℝ) *
        max 0 (1 - Real.sqrt ((d : ℤ) : ℝ) / 110) + 1 / 2⌋) := by
  obtain ⟨hbi0, hlen, hdist⟩ :=
    bestMatch_spec ⟨(r : ℤ), (g : ℤ), (b : ℤ)⟩ (COLOR_MAP.map ColorMapping.src) bi d hbm
  rw [palette_lengths.1] at hlen
  rw [COLOR_MAP_src_getD bi.toNat hlen] at hdist
  have hmemrw : ¬(memHide hs bi = true) := by simp [hmem]
  have hcmmem : COLOR_MAP.getD bi.toNat ⟨⟨0, 0, 0⟩, ⟨0, 0, 0⟩⟩ ∈ COLOR_MAP :=
    getD_mem COLOR_MAP bi.toNat ⟨⟨0, 0, 0⟩, ⟨0, 0, 0⟩⟩ (by rw [palette_lengths.2.1]; omega)
  have hok := COLOR_MAP_chanOK _ hcmmem
  have her : (((r : ℤ)) - (COLOR_MAP.getD bi.toNat ⟨⟨0, 0, 0⟩, ⟨0, 0, 0⟩⟩).src.r) *
      (((r : ℤ)) - (COLOR_MAP.getD bi.toNat ⟨⟨0, 0, 0⟩, ⟨0, 0, 0⟩⟩).src.r) ≤ d := by
    rw [← hdist]
    unfold distSq
    nlinarith [mul_self_nonneg ((g : ℤ) - (COLOR_MAP.getD bi.toNat ⟨⟨0, 0, 0⟩, ⟨0, 0, 0⟩⟩).src.g),
      mul_self_nonneg ((b : ℤ) - (COLOR_MAP.getD bi.toNat ⟨⟨0, 0, 0⟩, ⟨0, 0, 0⟩⟩).src.b)]
  have heg : (((g : ℤ)) - (COLOR_MAP.getD bi.toNat ⟨⟨0, 0, 0⟩, ⟨0, 0, 0⟩⟩).src.g) *
      (((g : ℤ)) - (COLOR_MAP.getD bi.toNat ⟨⟨0, 0, 0⟩, ⟨0, 0, 0⟩⟩).src.g) ≤ d := by
    rw [← hdist]
    unfold distSq
    nlinarith [mul_self_nonneg ((r : ℤ) - (COLOR_MAP.getD bi.toNat ⟨⟨0, 0, 0⟩, ⟨0, 0, 0⟩⟩).src.r),
      mul_self_nonneg ((b : ℤ) - (COLOR_MAP.getD bi.toNat ⟨⟨0, 0, 0⟩, ⟨0, 0, 0⟩⟩).src.b)]
  have heb : (((b : ℤ)) - (COLOR_MAP.getD bi.toNat ⟨⟨0, 0, 0⟩, ⟨0, 0, 0⟩⟩).src.b) *
      (((b : ℤ)) - (COLOR_MAP.getD bi.toNat ⟨⟨0, 0, 0⟩, ⟨0, 0, 0⟩⟩).src.b) ≤ d := by
    rw [← hdist]
    unfold distSq
    nlinarith [mul_self_nonneg ((r : ℤ) - (COLOR_MAP.getD bi.toNat ⟨⟨0, 0, 0⟩, ⟨0, 0, 0⟩⟩).src.r),
      mul_self_nonneg ((g : ℤ) - (COLOR_MAP.getD bi.toNat ⟨⟨0, 0, 0⟩, ⟨0, 0, 0⟩⟩).src.g)]
  have hir := interp_store_eq r (COLOR_MAP.getD bi.toNat ⟨⟨0, 0, 0⟩, ⟨0, 0, 0⟩⟩).src.r
    (COLOR_MAP.getD bi.toNat ⟨⟨0, 0, 0⟩, ⟨0, 0, 0⟩⟩).dst.r d hr255 hok.1 her hd0 hd
  have hig := interp_store_eq g (COLOR_MAP.getD bi.toNat ⟨⟨0, 0, 0⟩, ⟨0, 0, 0⟩⟩).src.g
    (COLOR_MAP.getD bi.toNat ⟨⟨0, 0, 0⟩, ⟨0, 0, 0⟩⟩).dst.g d hg255 hok.2.1 heg hd0 hd
  have hib := interp_store_eq b (COLOR_MAP.getD bi.toNat ⟨⟨0, 0, 0⟩, ⟨0, 0, 0⟩⟩).src.b
    (COLOR_MAP.getD bi.toNat ⟨⟨0, 0, 0⟩, ⟨0, 0, 0⟩⟩).dst.b d hb255 hok.2.2 heb hd0 hd
  rw [remapPixel_eq hs ⟨r, g, b, a⟩ bi d hvis hbm, if_pos hd, if_neg hmemrw,
    if_neg (by omega : ¬d = 0)]
  refine ⟨⟨hir.2.1, hir.2.2, ?_⟩, ⟨hig.2.1, hig.2.2, ?_⟩, ⟨hib.2.1, hib.2.2, ?_⟩⟩
  · have h1 := hir.1
    have h2 := hir.2.1
    show (storeByte (roundBlend ((r : ℕ) : ℤ)
      ((COLOR_MAP.getD bi.toNat ⟨⟨0, 0, 0⟩, ⟨0, 0, 0⟩⟩).dst.r -
       (COLOR_MAP.getD bi.toNat ⟨⟨0, 0, 0⟩, ⟨0, 0, 0⟩⟩).src.r) d.toNat) : ℤ) = _
    omega
  · have h1 := hig.1
    have h2 := hig.2.1
    show (storeByte (roundBlend ((g : ℕ) : ℤ)
      ((COLOR_MAP.getD bi.toNat ⟨⟨0, 0, 0⟩, ⟨0, 0, 0⟩⟩).dst.g -
       (COLOR_MAP.getD bi.toNat ⟨⟨0, 0, 0⟩, ⟨0, 0, 0⟩⟩).src.g) d.toNat) : ℤ) = _
    omega
  · have h1 := hib.1
    have h2 := hib.2.1
    show (storeByte (roundBlend ((b : ℕ) : ℤ)
      ((COLOR_MAP.getD bi.toNat ⟨⟨0, 0, 0⟩, ⟨0, 0, 0⟩⟩).dst.b -
       (COLOR_MAP.getD bi.toNat ⟨⟨0, 0, 0⟩, ⟨0, 0, 0⟩⟩).src.b) d.toNat) : ℤ) = _
    omega

/-- Witness for C10 at the anti-aliased blue pixel `(0, 0, 254)`
(classified to palette entry 1 at squared distance 1). -/
theorem C10_interp_range_witness :
    0 ≤ ⌊((0 : ℕ) : ℝ) + (((COLOR_MAP.getD (1 : ℤ).toNat ⟨⟨0, 0, 0⟩, ⟨0, 0, 0⟩⟩).dst.r -
        (COLOR_MAP.getD (1 : ℤ).toNat ⟨⟨0, 0, 0⟩, ⟨0, 0, 0⟩⟩).src.r : ℤ) : ℝ) *
      max 0 (1 - Real.sqrt (((1 : ℤ) : ℤ) : ℝ) / 110) + 1 / 2⌋ ∧
    ⌊((0 : ℕ) : ℝ) + (((COLOR_MAP.getD (1 : ℤ).toNat ⟨⟨0, 0, 0⟩, ⟨0, 0, 0⟩⟩).dst.r -
        (COLOR_MAP.getD (1 : ℤ).toNat ⟨⟨0, 0, 0⟩, ⟨0, 0, 0⟩⟩).src.r : ℤ) : ℝ) *
      max 0 (1 - Real.sqrt (((1 : ℤ) : ℤ) : ℝ) / 110) + 1 / 2⌋ ≤ 255 ∧
    ((remapPixel none ⟨0, 0, 254, 255⟩).r : ℤ) =
      ⌊((0 : ℕ) : ℝ) + (((COLOR_MAP.getD (1 : ℤ).toNat ⟨⟨0, 0, 0⟩, ⟨0, 0, 0⟩⟩).dst.r -
        (COLOR_MAP.getD (1 : ℤ).toNat ⟨⟨0, 0, 0⟩, ⟨0, 0, 0⟩⟩).src.r : ℤ) : ℝ) *
      max 0 (1 - Real.sqrt (((1 : ℤ) : ℤ) : ℝ) / 110) + 1 / 2⌋ := by
  exact (C10_interp_range 0 0 254 255 none 1 1 (by decide) (by decide) (by decide)
    (by decide) (by decide) (by decide) (by decide) (by decide)).1

/-- Claim C2 (amended): `setCachedTile` always stores the entry,
stamped with the current time, under the key; below capacity no other
entry is touched; at or above capacity the single oldest (first) entry
is deleted first — even when the key being written is already
present. -/
theorem C2_put_eviction (key : String) (buf : List ℕ) (now : ℕ) (c : TileCache) :
    mapFind key (setCachedTile key buf now c) = some ⟨buf, now⟩ ∧
    (c.length < TILE_CACHE_MAX →
      setCachedTile key buf now c = mapPut key ⟨buf, now⟩ c ∧
      ∀ k2, k2 ≠ key → mapFind k2 (setCachedTile key buf now c) = mapFind k2 c) ∧
    (∀ k0 e0 rest, c = (k0, e0) :: rest → TILE_CACHE_MAX ≤ c.length →
      setCachedTile key buf now c = mapPut key ⟨buf, now⟩ (mapErase k0 c)) := by
  refine ⟨?_, ?_, ?_⟩
  · unfold setCachedTile
    exact mapFind_mapPut_self key ⟨buf, now⟩ _
  · intro hlt
    have hrw : setCachedTile key buf now c = mapPut key ⟨buf, now⟩ c := by
      unfold setCachedTile
      rw [if_neg (by omega : ¬TILE_CACHE_MAX ≤ c.length)]
    refine ⟨hrw, fun k2 hne => ?_⟩
    rw [hrw]
    exact mapFind_mapPut_other k2 key ⟨buf, now⟩ c hne
  · intro k0 e0 rest hc hcap
    subst hc
    unfold setCachedTile
    rw [if_pos hcap]

/-- Witness for the amended C2 below capacity: the write stamps the
entry and leaves the other key untouched. -/
theorem C2_put_eviction_witness :
    mapFind "y" (setCachedTile "y" [7] 5 [("x", ⟨[], 0⟩)]) = some ⟨[7], 5⟩ ∧
    setCachedTile "y" [7] 5 [("x", ⟨[], 0⟩)] = mapPut "y" ⟨[7], 5⟩ [("x", ⟨[], 0⟩)] ∧
    mapFind "x" (setCachedTile "y" [7] 5 [("x", ⟨[], 0⟩)]) = mapFind "x" [("x", ⟨[], 0⟩)] := by
  have h := C2_put_eviction "y" [7] 5 [("x", ⟨[], 0⟩)]
  have h2 := h.2.1 (by decide)
  exact ⟨h.1, h2.1, h2.2 "x" (by decide)⟩

/-- Claim C4: from the empty cache, every operation sequence keeps the
size within `TILE_CACHE_MAX`; a `get` returns bytes only for an entry
aged at most `TILE_CACHE_TTL` and then moves it to the
most-recently-used position; a `get` of an over-age entry returns
absence and deletes the entry (lazy expiry). -/
theorem C4_cache_invariants (ops : List CacheOp) (key : String) (now : ℕ) :
    (execOps ops).length ≤ TILE_CACHE_MAX ∧
    (∀ b, (getCachedTile key now (execOps ops)).1 = some b →
      ∃ e, mapFind key (execOps ops) = some e ∧ e.buffer = b ∧
        now - e.timestamp ≤ TILE_CACHE_TTL ∧
        (getCachedTile key now (execOps ops)).2 =
          mapErase key (execOps ops) ++ [(key, e)]) ∧
    (∀ e, mapFind key (execOps ops) = some e → TILE_CACHE_TTL < now - e.timestamp →
      (getCachedTile key now (execOps ops)).1 = none ∧
      (getCachedTile key now (execOps ops)).2 = mapErase key (execOps ops) ∧
      mapFind key (getCachedTile key now (execOps ops)).2 = none) := by
  refine ⟨execOps_length ops, ?_, ?_⟩
  · exact fun b h => getCachedTile_hit key now (execOps ops) b h
  · intro e hf hexp
    have h := getCachedTile_expired key now (execOps ops) e hf hexp
    rw [h]
    exact ⟨rfl, rfl, mapFind_mapErase_self key (execOps ops)⟩

/-- A short demonstration workload for the cache invariants. -/
def demoOps : List CacheOp :=
  [CacheOp.put "a" [1] 0, CacheOp.put "bb" [2] 10, CacheOp.get "a" 20]

/-- Witness for C4 on a concrete workload: the bound holds, a fresh
entry is served and moved to the most-recently-used position, and an
over-age entry is deleted on lookup. -/
theorem C4_cache_invariants_witness :
    (execOps demoOps).length ≤ TILE_CACHE_MAX ∧
    (getCachedTile "a" 20 (execOps demoOps)).2 =
      mapErase "a" (execOps demoOps) ++ [("a", ⟨[1], 0⟩)] ∧
    (getCachedTile "a" 999999 (execOps demoOps)).1 = none ∧
    mapFind "a" (getCachedTile "a" 999999 (execOps demoOps)).2 = none := by
  have h1 := (C4_cache_invariants demoOps "a" 999999).1
  have h3 := (C4_cache_invariants demoOps "a" 999999).2.2 ⟨[1], 0⟩ (by decide) (by decide)
  obtain ⟨e, he1, he2, he3, he4⟩ :=
    (C4_cache_invariants demoOps "a" 20).2.1 [1] (by decide)
  have hee : e = ⟨[1], 0⟩ :=
    Option.some.inj (he1.symm.trans (by decide : mapFind "a" (execOps demoOps) = some ⟨[1], 0⟩))
  subst hee
  exact ⟨h1, he4, h3.1, h3.2.2⟩

/-- Claim C3 (amended): a category index is hidden only when some
comma-separated token of the hide parameter numerically converts to
exactly that index.  Tokens converting to NaN — such as alphabetic
text — are excluded from the hide set and have no effect.  An *empty*
token, however, converts to 0 rather than NaN and therefore hides
category 0, as the counterexample shows. -/
lemma any_map_comp (l : List (List Char)) (p : Option ℚ → Bool) :
    (l.map jsNumber).any p = l.any fun tok => p (jsNumber tok) := by
  induction l with
  | nil => rfl
  | cons x t ih => rw [List.map_cons, List.any_cons, List.any_cons, ih]

theorem C3_nonnumeric_tokens (hideStr : String) (idx : ℤ)
    (h : memHide (parseHideSet hideStr) idx = true) :
    hideStr ≠ "" ∧
    (splitChar ',' hideStr.data).any
      (fun tok => decide (jsNumber tok = some (idx : ℚ))) = true := by
  unfold parseHideSet at h
  by_cases hempty : hideStr = ""
  · rw [if_pos hempty] at h
    simp [memHide] at h
  · rw [if_neg hempty] at h
    refine ⟨hempty, ?_⟩
    simp only [memHide, memHideVals] at h
    rw [any_map_comp] at h
    exact h

/-- Witness for the amended C3: `hide=3` hides exactly category 3. -/
theorem C3_nonnumeric_tokens_witness :
    ("3" : String) ≠ "" ∧
    (splitChar ',' ("3" : String).data).any
      (fun tok => decide (jsNumber tok = some ((3 : ℤ) : ℚ))) = true :=
  C3_nonnumeric_tokens "3" 3 (by decide)

/-- Counterexample to claim C3 as stated: the malformed hide parameter
`abc,` holds one alphabetic and one empty token; the alphabetic token
is excluded, but the empty token converts to 0 (not NaN), so category
0 is hidden and the transform of an exact green pixel changes. -/
theorem C3_nonnumeric_tokens_cex :
    jsNumber ("abc" : String).data = none ∧
    jsNumber ("" : String).data = some 0 ∧
    memHide (parseHideSet "abc,") 0 = true ∧
    remapPixels [0, 128, 0, 255] (parseHideSet "abc,") = [0, 128, 0, 0] ∧
    remapPixels [0, 128, 0, 255] none = [52, 168, 83, 255] := by decide

/-- Claim C8: two proxied request URLs that differ only in the value
or presence of the `hide` query parameter produce the same clean URL —
which is both the upstream path-and-query and the canonical cache
key — hence the same upstream target URL; and no `hide` parameter
survives among the forwarded query pairs. -/
theorem C8_hide_stripped_shared_key (u1 u2 : String)
    (hpath : (splitUrl u1).1 = (splitUrl u2).1)
    (hparams : strippedParams u1 = strippedParams u2) :
    cleanUrlOf u1 = cleanUrlOf u2 ∧ targetUrlOf u1 = targetUrlOf u2 ∧
    ∀ kv ∈ strippedParams u1, kv.1 ≠ "hide" := by
  have hclean : cleanUrlOf u1 = cleanUrlOf u2 := by
    unfold cleanUrlOf
    rw [hpath, hparams]
  refine ⟨hclean, ?_, ?_⟩
  · unfold targetUrlOf
    rw [hclean]
  · intro kv hkv
    unfold strippedParams at hkv
    exact of_decide_eq_true (List.mem_filter.mp hkv).2

/-- Witness for C8: a tile URL with and without `hide=0,2`. -/
theorem C8_hide_stripped_shared_key_witness :
    cleanUrlOf "/api/highlight?layerName=VISITED&hide=0,2&z=5" =
      cleanUrlOf "/api/highlight?layerName=VISITED&z=5" ∧
    targetUrlOf "/api/highlight?layerName=VISITED&hide=0,2&z=5" =
      targetUrlOf "/api/highlight?layerName=VISITED&z=5" := by
  have h := C8_hide_stripped_shared_key "/api/highlight?layerName=VISITED&hide=0,2&z=5"
    "/api/highlight?layerName=VISITED&z=5" (by decide) (by decide)
  exact ⟨h.1, h.2.1⟩

/-- Claim C9: on the cache-miss tile path (upstream 200 with an image
body), a throwing decode/transform/encode step is swallowed: the
client still gets status 200 with exactly the raw upstream bytes, and
the cache holds those raw bytes under the canonical key. -/
theorem C9_transform_failure_fallback (cleanUrl : String) (now : ℕ) (inputBuf : List ℕ)
    (transform : List ℕ → Except String (List ℕ)) (isPlowTile : Bool) (hs : HideSet)
    (cache : TileCache) (msg : String)
    (hfail : transform inputBuf = Except.error msg) :
    (tileMissRespond cleanUrl now inputBuf transform isPlowTile hs cache).1 =
      ⟨200, inputBuf⟩ ∧
    mapFind cleanUrl
      (tileMissRespond cleanUrl now inputBuf transform isPlowTile hs cache).2 =
      some ⟨inputBuf, now⟩ := by
  have hcache : mapFind cleanUrl (setCachedTile cleanUrl inputBuf now cache) =
      some ⟨inputBuf, now⟩ := by
    unfold setCachedTile
    exact mapFind_mapPut_self cleanUrl ⟨inputBuf, now⟩ _
  unfold tileMissRespond
  cases isPlowTile with
  | true => simp [hfail, hcache]
  | false =>
    cases hs with
    | none => simp [hcache]
    | some l =>
      by_cases hl : 0 < l.length
      · simp [hl, hfail, hcache]
      · simp [hl, hcache]

/-- Witness for C9 with a concretely failing transform. -/
theorem C9_transform_failure_fallback_witness :
    (tileMissRespond "/api/t" 3 [9, 9] (fun _ => Except.error "boom") true none []).1 =
      ⟨200, [9, 9]⟩ ∧
    mapFind "/api/t" (tileMissRespond "/api/t" 3 [9, 9]
      (fun _ => Except.error "boom") true none []).2 = some ⟨[9, 9], 3⟩ :=
  C9_transform_failure_fallback "/api/t" 3 [9, 9] (fun _ => Except.error "boom")
    true none [] "boom" rfl

/-- A key is never found among entries that all carry other keys. -/
lemma mapFind_absent (key : String) (c : TileCache)
    (h : ∀ kv ∈ c, kv.1 ≠ key) : mapFind key c = none := by
  induction c with
  | nil => rfl
  | cons kv rest ih =>
    obtain ⟨k, w⟩ := kv
    rw [mapFind, if_neg (h (k, w) (List.mem_cons_self _ _))]
    exact ih fun kv2 hkv2 => h kv2 (List.mem_cons_of_mem _ hkv2)

/-- Deleting an absent key changes nothing. -/
lemma mapErase_absent (key : String) (c : TileCache)
    (h : ∀ kv ∈ c, kv.1 ≠ key) : mapErase key c = c := by
  induction c with
  | nil => rfl
  | cons kv rest ih =>
    obtain ⟨k, w⟩ := kv
    rw [mapErase, if_neg (h (k, w) (List.mem_cons_self _ _))]
    rw [ih fun kv2 hkv2 => h kv2 (List.mem_cons_of_mem _ hkv2)]

/-- Distinct filler keys for a capacity-sized cache. -/
def bulkKey (i : ℕ) : String := String.mk ('m' :: Nat.toDigits 10 i)

/-- The filler entries of the capacity-sized cache. -/
def bulkEntries : TileCache :=
  (List.range 1998).map fun i => (bulkKey i, ⟨[], 0⟩)

/-- A capacity-sized cache: oldest entry `k0`, then `k1`, then 1998
filler entries. -/
def bigCache : TileCache :=
  ("k0", ⟨[], 0⟩) :: ("k1", ⟨[], 0⟩) :: bulkEntries

/-- Filler keys collide with neither `k0` nor `k1`. -/
lemma bulkEntries_keys : ∀ kv ∈ bulkEntries, kv.1 ≠ "k0" ∧ kv.1 ≠ "k1" := by
  intro kv hkv
  obtain ⟨i, _, rfl⟩ := List.mem_map.mp hkv
  constructor
  · intro h
    have h2 := congrArg String.data h
    simp [bulkKey] at h2
  · intro h
    have h2 := congrArg String.data h
    simp [bulkKey] at h2

/-- Counterexample to claim C2 as stated: with the cache at capacity,
overwriting the already-present key `k1` still evicts the unrelated
oldest entry `k0`. -/
theorem C2_put_eviction_cex :
    bigCache.length = TILE_CACHE_MAX ∧
    mapFind "k1" bigCache = some ⟨[], 0⟩ ∧
    mapFind "k0" bigCache = some ⟨[], 0⟩ ∧
    mapFind "k0" (setCachedTile "k1" [7] 5 bigCache) = none ∧
    mapFind "k1" (setCachedTile "k1" [7] 5 bigCache) = some ⟨[7], 5⟩ := by
  have hlen : bigCache.length = TILE_CACHE_MAX := by
    simp [bigCache, bulkEntries, TILE_CACHE_MAX]
  have hset : setCachedTile "k1" [7] 5 bigCache =
      ("k1", ⟨[7], 5⟩) :: bulkEntries := by
    unfold setCachedTile
    rw [if_pos (by rw [hlen])]
    show mapPut "k1" ⟨[7], 5⟩ (mapErase "k0" bigCache) = ("k1", ⟨[7], 5⟩) :: bulkEntries
    have herase : mapErase "k0" bigCache = ("k1", ⟨[], 0⟩) :: bulkEntries := by
      show mapErase "k0" (("k0", ⟨[], 0⟩) :: ("k1", ⟨[], 0⟩) :: bulkEntries) = _
      rw [mapErase, if_pos rfl, mapErase, if_neg (by decide : ¬("k1" : String) = "k0"),
        mapErase_absent "k0" bulkEntries fun kv hkv => (bulkEntries_keys kv hkv).1]
    rw [herase, mapPut, if_pos rfl]
  refine ⟨hlen, ?_, ?_, ?_, ?_⟩
  · show mapFind "k1" (("k0", ⟨[], 0⟩) :: ("k1", ⟨[], 0⟩) :: bulkEntries) = some ⟨[], 0⟩
    rw [mapFind, if_neg (by decide : ¬("k0" : String) = "k1"), mapFind, if_pos rfl]
  · show mapFind "k0" (("k0", ⟨[], 0⟩) :: ("k1", ⟨[], 0⟩) :: bulkEntries) = some ⟨[], 0⟩
    rw [mapFind, if_pos rfl]
  · rw [hset, mapFind, if_neg (by decide : ¬("k1" : String) = "k0")]
    exact mapFind_absent "k0" bulkEntries fun kv hkv => (bulkEntries_keys kv hkv).1
  · rw [hset, mapFind, if_pos rfl]

end PlowProxy
